import Mathlib

/-!
Shallow embedding of the artefact staging pipeline implemented in
`.github/actions/stage/scripts/stage_common` of the netsuke repository
(modules `staging/pipeline.py`, `staging/output.py`, `staging/resolution.py`,
`glob_utils.py`, `config.py`), together with theorems checking the
natural-language specification against it.

Modelling conventions:
* absolute filesystem paths are lists of components (`FPath`);
* the filesystem is an association list from paths to file contents; only
  regular files are tracked (directory creation is a no-op in the model);
* Python exceptions become an explicit `PyError` sum: `StageError` is the
  pipeline's own error type, `keyError` and `valueError` model the built-in
  exceptions that the code can let escape;
* the checksum primitive (`hashlib`) and the on-disk glob enumeration are
  external collaborators and enter the model as function parameters.
-/

/-! ## Paths -/

/-- Absolute filesystem path: the list of components below the root. -/
abbrev FPath := List String

/-- Python `sep.join(parts)`. -/
def pyJoin (sep : String) : List String → String
  | [] => ""
  | [x] => x
  | x :: rest => x ++ sep ++ pyJoin sep rest

/-- Render a path the way `Path.as_posix()` does for absolute paths. -/
def posixOf (p : FPath) : String := "/" ++ pyJoin "/" p

/-- The base name of a path (`Path.name`); empty for the root. -/
def nameOf (p : FPath) : String := p.getLast?.getD ""

/-- Is `pre` a component-wise prefix of `p`?  This is
`Path.is_relative_to` for two resolved absolute paths. -/
def pathUnder : FPath → FPath → Bool
  | [], _ => true
  | _ :: _, [] => false
  | a :: pre, b :: p => a == b && pathUnder pre p

/-- Split a character list at a separator, keeping empty groups. -/
def splitChars (sep : Char) : List Char → List (List Char)
  | [] => [[]]
  | c :: rest =>
    if c = sep then [] :: splitChars sep rest
    else
      match splitChars sep rest with
      | [] => [[c]]
      | g :: gs => (c :: g) :: gs

/-- Does the string start with a slash (POSIX-absolute)? -/
def posixIsAbs (s : String) : Bool :=
  match s.data with
  | '/' :: _ => true
  | _ => false

/-- The components of a POSIX path string, as `PurePosixPath.parts` computes
them below the optional anchor: empty segments and `"."` are dropped while
`".."` is kept. -/
def posixParts (s : String) : List String :=
  ((splitChars '/' s.data).map String.mk).filter (fun c => c ≠ "" && c ≠ ".")

/-- `pathlib`'s `/` operator: an absolute right operand replaces the base. -/
def joinPath (base : FPath) (child : String) : FPath :=
  if posixIsAbs child then posixParts child else base ++ posixParts child

/-- Lexical normalisation of `".."` segments: the model of `Path.resolve()`
on a filesystem without symbolic links (`".."` at the root stays at the
root, as POSIX resolution does). -/
def resolvePath (p : List String) : FPath :=
  p.foldl (fun acc c => if c = ".." then acc.dropLast else acc ++ [c]) []

/-! ## Filesystem model -/

/-- A filesystem: an association list from absolute paths to file contents.
Only regular files are tracked. -/
abbrev FS := List (FPath × String)

/-- Content of the regular file at `p`, if any. -/
def fsGet (fs : FS) (p : FPath) : Option String :=
  (fs.find? (fun e => e.1 == p)).map (fun e => e.2)

/-- Create or overwrite the regular file at `p`. -/
def fsSet (fs : FS) (p : FPath) (v : String) : FS :=
  if fs.any (fun e => e.1 == p) then
    fs.map (fun e => if e.1 == p then (p, v) else e)
  else
    fs ++ [(p, v)]

/-- Delete the regular file at `p` (`Path.unlink`). -/
def fsRemove (fs : FS) (p : FPath) : FS :=
  fs.filter (fun e => !(e.1 == p))

/-- Remove every file below `root`, `root` itself included
(`shutil.rmtree`). -/
def clearSubtree (root : FPath) (fs : FS) : FS :=
  fs.filter (fun e => !(pathUnder root e.1))

/-- The files below `root` (used to compare staging-directory contents). -/
def restrictSubtree (root : FPath) (fs : FS) : FS :=
  fs.filter (fun e => pathUnder root e.1)

/-! ## Output value escaping

`write_github_output` escapes scalar values with
`value.replace("%", "%25").replace("\r", "%0D").replace("\n", "%0A")`,
the same chain `_escape_output_value` spells out in
`.github/workflows/scripts/stage_common.py`.  `str.replace` scans left to
right and replaces non-overlapping occurrences; with a one-character
pattern that is `replaceChar`, and with a three-character pattern it is
`replace3`. -/

/-- `str.replace` with a one-character pattern. -/
def replaceChar (pat : Char) (rep : List Char) : List Char → List Char
  | [] => []
  | c :: rest =>
    if c = pat then rep ++ replaceChar pat rep rest
    else c :: replaceChar pat rep rest

/-- `str.replace` with a three-character pattern (leftmost, non-overlapping). -/
def replace3 (p1 p2 p3 : Char) (rep : List Char) : List Char → List Char
  | a :: b :: c :: rest =>
    if a = p1 ∧ b = p2 ∧ c = p3 then rep ++ replace3 p1 p2 p3 rep rest
    else a :: replace3 p1 p2 p3 rep (b :: c :: rest)
  | l => l

/-- The Output Writer's scalar escaping, from the source:
`%` to `%25`, then carriage-return to `%0D`, then line-feed to `%0A`. -/
def _escape_output_value (s : String) : String :=
  String.mk (replaceChar '\n' ['%', '0', 'A']
    (replaceChar '\r' ['%', '0', 'D']
      (replaceChar '%' ['%', '2', '5'] s.data)))

/-- Decoding that reverses the three substitutions of the escaping scheme,
as the specification describes it: `%0A` back to line-feed, then `%0D`
back to carriage-return, then `%25` back to `%`. -/
def decode_output_value (s : String) : String :=
  String.mk (replace3 '%' '2' '5' ['%']
    (replace3 '%' '0' 'D' ['\r']
      (replace3 '%' '0' 'A' ['\n'] s.data)))

/-! ### Round-trip proof -/

/-- Concatenated character-wise expansion. -/
def charMapJoin (f : Char → List Char) : List Char → List Char
  | [] => []
  | c :: rest => f c ++ charMapJoin f rest

/-- Expansion after the first replace (`%` escaped). -/
def escStep1 (c : Char) : List Char :=
  if c = '%' then ['%', '2', '5'] else [c]

/-- Expansion after the first two replaces (`%` and CR escaped). -/
def escStep2 (c : Char) : List Char :=
  if c = '%' then ['%', '2', '5'] else if c = '\r' then ['%', '0', 'D'] else [c]

/-- Expansion after all three replaces. -/
def escStep3 (c : Char) : List Char :=
  if c = '%' then ['%', '2', '5']
  else if c = '\r' then ['%', '0', 'D']
  else if c = '\n' then ['%', '0', 'A'] else [c]

theorem replaceChar_eq_charMapJoin (pat : Char) (rep : List Char) (s : List Char) :
    replaceChar pat rep s = charMapJoin (fun c => if c = pat then rep else [c]) s := by
  induction s with
  | nil => rfl
  | cons c rest ih =>
    by_cases h : c = pat <;> simp [replaceChar, charMapJoin, h, ih]

theorem charMapJoin_append (f : Char → List Char) (a b : List Char) :
    charMapJoin f (a ++ b) = charMapJoin f a ++ charMapJoin f b := by
  induction a with
  | nil => rfl
  | cons c rest ih => simp [charMapJoin, ih]

theorem charMapJoin_comp (f g : Char → List Char) (s : List Char) :
    charMapJoin g (charMapJoin f s) = charMapJoin (fun c => charMapJoin g (f c)) s := by
  induction s with
  | nil => rfl
  | cons c rest ih => simp [charMapJoin, charMapJoin_append, ih]

theorem escape_eq_charMapJoin (s : List Char) :
    replaceChar '\n' ['%', '0', 'A']
      (replaceChar '\r' ['%', '0', 'D']
        (replaceChar '%' ['%', '2', '5'] s)) = charMapJoin escStep3 s := by
  rw [replaceChar_eq_charMapJoin, replaceChar_eq_charMapJoin, replaceChar_eq_charMapJoin,
    charMapJoin_comp, charMapJoin_comp]
  induction s with
  | nil => rfl
  | cons c rest ih =>
    simp only [charMapJoin] at ih ⊢
    rw [ih]
    by_cases h1 : c = '%'
    · subst h1; rfl
    · by_cases h2 : c = '\r'
      · subst h2; rfl
      · by_cases h3 : c = '\n'
        · subst h3; rfl
        · simp [escStep3, charMapJoin, h1, h2, h3]

theorem replace3_hit (p1 p2 p3 : Char) (rep rest : List Char) :
    replace3 p1 p2 p3 rep (p1 :: p2 :: p3 :: rest) = rep ++ replace3 p1 p2 p3 rep rest := by
  rw [replace3]
  simp

theorem replace3_miss (p1 p2 p3 : Char) (rep : List Char) (a b c : Char)
    (rest : List Char) (h : ¬(a = p1 ∧ b = p2 ∧ c = p3)) :
    replace3 p1 p2 p3 rep (a :: b :: c :: rest) =
      a :: replace3 p1 p2 p3 rep (b :: c :: rest) := by
  rw [replace3]
  simp [h]

theorem replace3_skip (p1 p2 p3 : Char) (rep : List Char) (a : Char)
    (l : List Char) (h : a ≠ p1) :
    replace3 p1 p2 p3 rep (a :: l) = a :: replace3 p1 p2 p3 rep l := by
  cases l with
  | nil => rfl
  | cons b l2 =>
    cases l2 with
    | nil => rfl
    | cons c rest =>
      rw [replace3]
      simp [h]

theorem decode1_escape (s : List Char) :
    replace3 '%' '0' 'A' ['\n'] (charMapJoin escStep3 s) = charMapJoin escStep2 s := by
  induction s with
  | nil => rfl
  | cons c rest ih =>
    by_cases h1 : c = '%'
    · subst h1
      show replace3 '%' '0' 'A' ['\n'] ('%' :: '2' :: '5' :: charMapJoin escStep3 rest) =
        '%' :: '2' :: '5' :: charMapJoin escStep2 rest
      rw [replace3_miss '%' '0' 'A' ['\n'] '%' '2' '5' _ (by decide),
        replace3_skip '%' '0' 'A' ['\n'] '2' _ (by decide),
        replace3_skip '%' '0' 'A' ['\n'] '5' _ (by decide), ih]
    · by_cases h2 : c = '\r'
      · subst h2
        show replace3 '%' '0' 'A' ['\n'] ('%' :: '0' :: 'D' :: charMapJoin escStep3 rest) =
          '%' :: '0' :: 'D' :: charMapJoin escStep2 rest
        rw [replace3_miss '%' '0' 'A' ['\n'] '%' '0' 'D' _ (by decide),
          replace3_skip '%' '0' 'A' ['\n'] '0' _ (by decide),
          replace3_skip '%' '0' 'A' ['\n'] 'D' _ (by decide), ih]
      · by_cases h3 : c = '\n'
        · subst h3
          show replace3 '%' '0' 'A' ['\n'] ('%' :: '0' :: 'A' :: charMapJoin escStep3 rest) =
            '\n' :: charMapJoin escStep2 rest
          rw [replace3_hit, ih]
          rfl
        · show replace3 '%' '0' 'A' ['\n'] (escStep3 c ++ charMapJoin escStep3 rest) =
            escStep2 c ++ charMapJoin escStep2 rest
          rw [escStep3, if_neg h1, if_neg h2, if_neg h3, escStep2, if_neg h1, if_neg h2]
          simpa using (replace3_skip '%' '0' 'A' ['\n'] c _ h1).trans (by rw [ih])

theorem decode2_escape (s : List Char) :
    replace3 '%' '0' 'D' ['\r'] (charMapJoin escStep2 s) = charMapJoin escStep1 s := by
  induction s with
  | nil => rfl
  | cons c rest ih =>
    by_cases h1 : c = '%'
    · subst h1
      show replace3 '%' '0' 'D' ['\r'] ('%' :: '2' :: '5' :: charMapJoin escStep2 rest) =
        '%' :: '2' :: '5' :: charMapJoin escStep1 rest
      rw [replace3_miss '%' '0' 'D' ['\r'] '%' '2' '5' _ (by decide),
        replace3_skip '%' '0' 'D' ['\r'] '2' _ (by decide),
        replace3_skip '%' '0' 'D' ['\r'] '5' _ (by decide), ih]
    · by_cases h2 : c = '\r'
      · subst h2
        show replace3 '%' '0' 'D' ['\r'] ('%' :: '0' :: 'D' :: charMapJoin escStep2 rest) =
          '\r' :: charMapJoin escStep1 rest
        rw [replace3_hit, ih]
        rfl
      · show replace3 '%' '0' 'D' ['\r'] (escStep2 c ++ charMapJoin escStep2 rest) =
          escStep1 c ++ charMapJoin escStep1 rest
        rw [escStep2, if_neg h1, if_neg h2, escStep1, if_neg h1]
        simpa using (replace3_skip '%' '0' 'D' ['\r'] c _ h1).trans (by rw [ih])

theorem decode3_escape (s : List Char) :
    replace3 '%' '2' '5' ['%'] (charMapJoin escStep1 s) = s := by
  induction s with
  | nil => rfl
  | cons c rest ih =>
    by_cases h1 : c = '%'
    · subst h1
      show replace3 '%' '2' '5' ['%'] ('%' :: '2' :: '5' :: charMapJoin escStep1 rest) =
        '%' :: rest
      rw [replace3_hit, ih]
      rfl
    · show replace3 '%' '2' '5' ['%'] (escStep1 c ++ charMapJoin escStep1 rest) = c :: rest
      rw [escStep1, if_neg h1]
      simpa using (replace3_skip '%' '2' '5' ['%'] c _ h1).trans (by rw [ih])

theorem escape_output_value_data (s : String) :
    (_escape_output_value s).data = charMapJoin escStep3 s.data := by
  show replaceChar '\n' ['%', '0', 'A']
      (replaceChar '\r' ['%', '0', 'D']
        (replaceChar '%' ['%', '2', '5'] s.data)) = charMapJoin escStep3 s.data
  exact escape_eq_charMapJoin s.data

/-- C7: the Output Writer's scalar escaping replaces `%` with `%25`, then
carriage-return with `%0D`, then line-feed with `%0A`, in that order, and
for every string (with `%`, CR and LF in any combination) reversing the
three substitutions recovers exactly the original string. -/
theorem escaping_round_trip (s : String) :
    decode_output_value (_escape_output_value s) = s := by
  obtain ⟨d⟩ := s
  show String.mk (replace3 '%' '2' '5' ['%']
    (replace3 '%' '0' 'D' ['\r']
      (replace3 '%' '0' 'A' ['\n'] (_escape_output_value ⟨d⟩).data))) = ⟨d⟩
  rw [escape_output_value_data, decode1_escape, decode2_escape, decode3_escape]

/-! ## Path Resolver: newest-file selection

`_newest_file` (staging/resolution.py) scans glob candidates, skips entries
that are not regular files, and keeps the entry whose key
`(int(path.stat().st_mtime_ns), path.as_posix())` is strictly greatest;
a `stat` failure contributes the key `(0, path.as_posix())`.
`_select_newest_or_none` (glob_utils.py) is `max(candidates, key=_mtime_key)`
over an already-filtered list. -/

/-- One glob candidate: its rendered path string, whether it names a
regular file, and the `st_mtime_ns` reported by `stat` (`none` models an
`OSError` from `stat`). -/
structure Candidate where
  path : String
  isFile : Bool
  mtime : Option Int
deriving DecidableEq

/-- The comparison key `(int(st_mtime_ns), as_posix())`, with `(0, path)`
when `stat` fails; Python compares these tuples lexicographically and the
string by code points, which is the order on the character list. -/
def statKey (c : Candidate) : Lex (Int × List Char) :=
  toLex (c.mtime.getD 0, c.path.data)

/-- Loop state of `_newest_file`: the best key and best path so far. -/
def newest_file_go : Option (Lex (Int × List Char)) → Option String → List Candidate → Option String
  | _, best, [] => best
  | bestKey, best, c :: rest =>
    if !c.isFile then newest_file_go bestKey best rest
    else
      match bestKey with
      | none => newest_file_go (some (statKey c)) (some c.path) rest
      | some bk =>
        if bk < statKey c then newest_file_go (some (statKey c)) (some c.path) rest
        else newest_file_go (some bk) best rest

/-- `_newest_file` from staging/resolution.py. -/
def _newest_file (candidates : List Candidate) : Option String :=
  newest_file_go none none candidates

/-- `_select_newest_or_none` from glob_utils.py: Python's
`max(candidates, key=_mtime_key)` keeps the first entry whose key is not
exceeded by a later one, or `None` for an empty list. -/
def _select_newest_or_none (candidates : List Candidate) : Option String :=
  match candidates with
  | [] => none
  | c :: rest =>
    some ((rest.foldl (fun best x => if statKey best < statKey x then x else best) c).path)

/-- Keys of the regular-file candidates, in list order. -/
def fileKeys (l : List Candidate) : List (Lex (Int × List Char)) :=
  (l.filter (fun c => c.isFile)).map statKey

theorem newest_file_go_some (l : List Candidate) :
    ∀ (bk : Lex (Int × List Char)) (p : String), p.data = (ofLex bk).2 →
      newest_file_go (some bk) (some p) l =
        some (String.mk (ofLex ((fileKeys l).foldl max bk)).2) := by
  induction l with
  | nil =>
    intro bk p hp
    show some p = some (String.mk (ofLex bk).2)
    obtain ⟨d⟩ := p
    simp only at hp
    rw [hp]
  | cons c rest ih =>
    intro bk p hp
    by_cases hf : c.isFile
    · have hfk : fileKeys (c :: rest) = statKey c :: fileKeys rest := by
        simp [fileKeys, List.filter_cons, hf]
      rw [hfk, List.foldl_cons]
      by_cases hlt : bk < statKey c
      · rw [max_eq_right (le_of_lt hlt)]
        have hstep : newest_file_go (some bk) (some p) (c :: rest) =
            newest_file_go (some (statKey c)) (some c.path) rest := by
          simp [newest_file_go, hf, hlt]
        rw [hstep]
        exact ih (statKey c) c.path rfl
      · rw [max_eq_left (not_lt.mp hlt)]
        have hstep : newest_file_go (some bk) (some p) (c :: rest) =
            newest_file_go (some bk) (some p) rest := by
          simp [newest_file_go, hf, hlt]
        rw [hstep]
        exact ih bk p hp
    · have hfk : fileKeys (c :: rest) = fileKeys rest := by
        simp [fileKeys, List.filter_cons, hf]
      rw [hfk]
      have hstep : newest_file_go (some bk) (some p) (c :: rest) =
          newest_file_go (some bk) (some p) rest := by
        simp [newest_file_go, hf]
      rw [hstep]
      exact ih bk p hp

theorem newest_file_char (l : List Candidate) :
    _newest_file l =
      match fileKeys l with
      | [] => none
      | k :: ks => some (String.mk (ofLex (ks.foldl max k)).2) := by
  induction l with
  | nil => rfl
  | cons c rest ih =>
    by_cases hf : c.isFile
    · have hfk : fileKeys (c :: rest) = statKey c :: fileKeys rest := by
        simp [fileKeys, List.filter_cons, hf]
      have h1 : _newest_file (c :: rest) = newest_file_go (some (statKey c)) (some c.path) rest := by
        simp [_newest_file, newest_file_go, hf]
      rw [h1, newest_file_go_some rest (statKey c) c.path rfl, hfk]
    · have hfk : fileKeys (c :: rest) = fileKeys rest := by
        simp [fileKeys, List.filter_cons, hf]
      have h1 : _newest_file (c :: rest) = newest_file_go none none rest := by
        simp [_newest_file, newest_file_go, hf]
      rw [h1, hfk]
      exact ih

theorem foldl_max_mem {α : Type} [LinearOrder α] (l : List α) :
    ∀ a : α, l.foldl max a ∈ a :: l := by
  induction l with
  | nil => intro a; simp
  | cons b bs ih =>
    intro a
    rw [List.foldl_cons]
    rcases List.mem_cons.mp (ih (max a b)) with h1 | h1
    · rcases max_choice a b with hm | hm
      · rw [h1, hm]; exact List.mem_cons_self _ _
      · rw [h1, hm]; exact List.mem_cons.mpr (Or.inr (List.mem_cons_self _ _))
    · exact List.mem_cons.mpr (Or.inr (List.mem_cons.mpr (Or.inr h1)))

theorem le_foldl_max {α : Type} [LinearOrder α] (l : List α) :
    ∀ a : α, ∀ x ∈ a :: l, x ≤ l.foldl max a := by
  induction l with
  | nil => intro a x hx; simp at hx; simp [hx]
  | cons b bs ih =>
    intro a x hx
    rw [List.foldl_cons]
    rcases List.mem_cons.mp hx with h1 | h1
    · rw [h1]
      exact le_trans (le_max_left a b) (ih (max a b) _ (List.mem_cons_self _ _))
    · rcases List.mem_cons.mp h1 with h2 | h2
      · rw [h2]
        exact le_trans (le_max_right a b) (ih (max a b) _ (List.mem_cons_self _ _))
      · exact ih (max a b) x (List.mem_cons.mpr (Or.inr h2))

/-- Maximum of a key list threaded through an `Option` accumulator. -/
def maxKeyStep (acc : Option (Lex (Int × List Char))) (k : Lex (Int × List Char)) :
    Option (Lex (Int × List Char)) :=
  match acc with
  | none => some k
  | some a => some (max a k)

theorem maxKeyStep_foldl_some (ks : List (Lex (Int × List Char))) :
    ∀ a, ks.foldl maxKeyStep (some a) = some (ks.foldl max a) := by
  induction ks with
  | nil => intro a; rfl
  | cons k rest ih => intro a; rw [List.foldl_cons, List.foldl_cons]; exact ih (max a k)

theorem newest_file_mfold (l : List Candidate) :
    _newest_file l = ((fileKeys l).foldl maxKeyStep none).map
      (fun k => String.mk (ofLex k).2) := by
  rw [newest_file_char]
  cases hk : fileKeys l with
  | nil => rfl
  | cons k ks =>
    rw [List.foldl_cons]
    show some (String.mk (ofLex (ks.foldl max k)).2) = _
    rw [show List.foldl maxKeyStep (maxKeyStep none k) ks =
      List.foldl maxKeyStep (some k) ks from rfl, maxKeyStep_foldl_some]
    rfl

theorem newest_file_perm {l₁ l₂ : List Candidate} (h : l₁.Perm l₂) :
    _newest_file l₁ = _newest_file l₂ := by
  rw [newest_file_mfold, newest_file_mfold]
  have hp : (fileKeys l₁).Perm (fileKeys l₂) := (h.filter _).map _
  have hcomm : ∀ (acc : Option (Lex (Int × List Char))) (k k' : Lex (Int × List Char)),
      maxKeyStep (maxKeyStep acc k) k' = maxKeyStep (maxKeyStep acc k') k := by
    intro acc k k'
    cases acc with
    | none => simp [maxKeyStep, max_comm]
    | some a => simp [maxKeyStep, max_assoc, max_comm k k']
  rw [@List.Perm.foldl_eq _ _ maxKeyStep _ _ ⟨hcomm⟩ hp none]

theorem select_fold_statKey (rest : List Candidate) :
    ∀ c : Candidate,
      statKey (rest.foldl (fun best x => if statKey best < statKey x then x else best) c) =
        (rest.map statKey).foldl max (statKey c) := by
  induction rest with
  | nil => intro c; rfl
  | cons x xs ih =>
    intro c
    rw [List.foldl_cons, List.map_cons, List.foldl_cons]
    by_cases h : statKey c < statKey x
    · rw [if_pos h, max_eq_right (le_of_lt h)]
      exact ih x
    · rw [if_neg h, max_eq_left (not_lt.mp h)]
      exact ih c

theorem select_newest_eq_newest_file (m : List Candidate) (hall : ∀ c ∈ m, c.isFile) :
    _select_newest_or_none m = _newest_file m := by
  cases m with
  | nil => rfl
  | cons c rest =>
    have hfk : fileKeys (c :: rest) = statKey c :: fileKeys rest := by
      simp [fileKeys, List.filter_cons, hall c (List.mem_cons_self _ _)]
    have hrest : fileKeys rest = rest.map statKey := by
      have hid : rest.filter (fun x => x.isFile) = rest :=
        List.filter_eq_self.mpr (fun a ha => hall a (List.mem_cons.mpr (Or.inr ha)))
      rw [fileKeys, hid]
    rw [newest_file_char, hfk]
    show some ((rest.foldl (fun best x => if statKey best < statKey x then x else best) c).path) =
      some (String.mk (ofLex ((fileKeys rest).foldl max (statKey c))).2)
    rw [hrest, ← select_fold_statKey]
    rfl

/-- C5: on a non-empty set of regular-file candidates the Path Resolver
returns the candidate with the greatest modification time, breaking mtime
ties by the lexicographically greatest rendered path string; the selection
is invariant under permutation of the enumeration (a pure function of the
candidate set), non-regular files are discarded, an empty match set yields
not-found, and `_select_newest_or_none` agrees with `_newest_file` on
filtered candidate lists. -/
theorem C5_path_resolver_newest_selection (l : List Candidate)
    (hne : l.filter (fun c => c.isFile) ≠ []) :
    (∃ c, c ∈ l ∧ c.isFile = true ∧ _newest_file l = some c.path ∧
      (∀ c' ∈ l, c'.isFile → c'.mtime.getD 0 ≤ c.mtime.getD 0) ∧
      (∀ c' ∈ l, c'.isFile → c'.mtime.getD 0 = c.mtime.getD 0 →
        c'.path.data ≤ c.path.data)) ∧
    (∀ l', l.Perm l' → _newest_file l = _newest_file l') ∧
    _newest_file l = _newest_file (l.filter (fun c => c.isFile)) ∧
    (∀ m : List Candidate, m.filter (fun c => c.isFile) = [] → _newest_file m = none) ∧
    (∀ m : List Candidate, (∀ c ∈ m, c.isFile) → _select_newest_or_none m = _newest_file m) := by
  refine ⟨?_, fun l' h => newest_file_perm h, ?_, ?_, fun m h => select_newest_eq_newest_file m h⟩
  · cases hk : fileKeys l with
    | nil =>
      exfalso
      apply hne
      rw [fileKeys] at hk
      exact List.map_eq_nil_iff.mp hk
    | cons k ks =>
      have hmem : ks.foldl max k ∈ fileKeys l := by
        rw [hk]
        exact foldl_max_mem ks k
      obtain ⟨c, hcf, hck⟩ := List.mem_map.mp hmem
      have hcl : c ∈ l := (List.mem_filter.mp hcf).1
      have hcfile : c.isFile = true := (List.mem_filter.mp hcf).2
      have hkey : ∀ c' ∈ l, c'.isFile → statKey c' ≤ statKey c := by
        intro c' hc' hf'
        have hmem' : statKey c' ∈ fileKeys l :=
          List.mem_map.mpr ⟨c', List.mem_filter.mpr ⟨hc', hf'⟩, rfl⟩
        rw [hk] at hmem'
        rw [hck]
        exact le_foldl_max ks k _ hmem'
      refine ⟨c, hcl, hcfile, ?_, ?_, ?_⟩
      · rw [newest_file_char, hk]
        show some (String.mk (ofLex (ks.foldl max k)).2) = some c.path
        rw [← hck]
        rfl
      · intro c' hc' hf'
        have h := hkey c' hc' hf'
        have h2 := (Prod.Lex.le_iff (c'.mtime.getD 0, c'.path.data)
          (c.mtime.getD 0, c.path.data)).mp h
        rcases h2 with h2 | h2
        · exact le_of_lt h2
        · exact le_of_eq h2.1
      · intro c' hc' hf' hmt
        have h := hkey c' hc' hf'
        have h2 := (Prod.Lex.le_iff (c'.mtime.getD 0, c'.path.data)
          (c.mtime.getD 0, c.path.data)).mp h
        rcases h2 with h2 | h2
        · exact absurd (hmt ▸ h2) (lt_irrefl _)
        · exact h2.2
  · rw [newest_file_char, newest_file_char]
    have : fileKeys (l.filter (fun c => c.isFile)) = fileKeys l := by
      simp [fileKeys, List.filter_filter]
    rw [this]
  · intro m hm
    rw [newest_file_char]
    simp [fileKeys, hm]

/-- Concrete check of C5: two regular files with equal modification times;
the resolver picks the lexicographically greater path, deterministically. -/
theorem C5_path_resolver_newest_selection_witness :
    (([⟨"/w/dist/a.txt", true, some 7⟩, ⟨"/w/dist/b.txt", true, some 7⟩,
        ⟨"/w/dist/zzz", false, some 99⟩] : List Candidate).filter
      (fun c => c.isFile) ≠ []) ∧
    ((∃ c, c ∈ ([⟨"/w/dist/a.txt", true, some 7⟩, ⟨"/w/dist/b.txt", true, some 7⟩,
        ⟨"/w/dist/zzz", false, some 99⟩] : List Candidate) ∧ c.isFile = true ∧
      _newest_file [⟨"/w/dist/a.txt", true, some 7⟩, ⟨"/w/dist/b.txt", true, some 7⟩,
        ⟨"/w/dist/zzz", false, some 99⟩] = some c.path ∧
      (∀ c' ∈ ([⟨"/w/dist/a.txt", true, some 7⟩, ⟨"/w/dist/b.txt", true, some 7⟩,
        ⟨"/w/dist/zzz", false, some 99⟩] : List Candidate), c'.isFile →
          c'.mtime.getD 0 ≤ c.mtime.getD 0) ∧
      (∀ c' ∈ ([⟨"/w/dist/a.txt", true, some 7⟩, ⟨"/w/dist/b.txt", true, some 7⟩,
        ⟨"/w/dist/zzz", false, some 99⟩] : List Candidate), c'.isFile →
          c'.mtime.getD 0 = c.mtime.getD 0 → c'.path.data ≤ c.path.data)) ∧
    (∀ l', ([⟨"/w/dist/a.txt", true, some 7⟩, ⟨"/w/dist/b.txt", true, some 7⟩,
        ⟨"/w/dist/zzz", false, some 99⟩] : List Candidate).Perm l' →
      _newest_file [⟨"/w/dist/a.txt", true, some 7⟩, ⟨"/w/dist/b.txt", true, some 7⟩,
        ⟨"/w/dist/zzz", false, some 99⟩] = _newest_file l') ∧
    _newest_file [⟨"/w/dist/a.txt", true, some 7⟩, ⟨"/w/dist/b.txt", true, some 7⟩,
        ⟨"/w/dist/zzz", false, some 99⟩] =
      _newest_file (([⟨"/w/dist/a.txt", true, some 7⟩, ⟨"/w/dist/b.txt", true, some 7⟩,
        ⟨"/w/dist/zzz", false, some 99⟩] : List Candidate).filter (fun c => c.isFile)) ∧
    (∀ m : List Candidate, m.filter (fun c => c.isFile) = [] → _newest_file m = none) ∧
    (∀ m : List Candidate, (∀ c ∈ m, c.isFile) → _select_newest_or_none m = _newest_file m)) :=
  ⟨by decide, C5_path_resolver_newest_selection _ (by decide)⟩

/-! ## Errors, dictionaries and template rendering -/

deriving instance DecidableEq for Except

/-- Python exceptions the pipeline can surface: its own `StageError`, and
the built-in `KeyError`, `ValueError` and `OSError` kinds it can let
propagate. -/
inductive PyError
  | stageError (msg : String)
  | keyError (key : String)
  | valueError (msg : String)
  | osError (msg : String)
deriving DecidableEq

/-- Python `repr` of a string, modelled for strings without quotes,
backslashes or control characters — the only shapes the pipeline
interpolates into messages. -/
def pyRepr (s : String) : String := "'" ++ s ++ "'"

/-- A Python dict with string keys, as an association list with unique
keys: an update replaces the existing binding in place or appends. -/
def dictSet {α : Type} (d : List (String × α)) (k : String) (v : α) :
    List (String × α) :=
  if d.any (fun e => e.1 == k) then
    d.map (fun e => if e.1 == k then (k, v) else e)
  else
    d ++ [(k, v)]

/-- Lookup in a Python dict modelled as an association list. -/
def dictGet {α : Type} (d : List (String × α)) (k : String) : Option α :=
  (d.find? (fun e => e.1 == k)).map (fun e => e.2)

/-- Template context: the mapping `str.format(**context)` receives. -/
abbrev Ctx := List (String × String)

/-- Scanner mode for `str.format`: plain text, just after an unpaired
opening or closing brace, or inside a replacement field (the field name is
carried reversed). -/
inductive FmtMode
  | literal
  | sawOpen
  | sawClose
  | field (keyRev : List Char)

/-- `str.format` restricted to the plain named fields this repository uses
(with the doubled-brace escapes): one character is consumed per step.  An
absent key raises `KeyError`; stray braces and empty (auto-numbered) fields
raise `ValueError`-class errors as CPython does. -/
def pyFormatGo (ctx : Ctx) : FmtMode -> List Char -> Except PyError (List Char)
  | .literal, [] => .ok []
  | .sawOpen, [] => .error (.valueError "Single '\x7b' encountered in format string")
  | .field _, [] => .error (.valueError "expected '\x7d' before end of string")
  | .sawClose, [] => .error (.valueError "Single '\x7d' encountered in format string")
  | .literal, c :: rest =>
    if c = '\x7b' then pyFormatGo ctx .sawOpen rest
    else if c = '\x7d' then pyFormatGo ctx .sawClose rest
    else
      match pyFormatGo ctx .literal rest with
      | .ok out => .ok (c :: out)
      | .error e => .error e
  | .sawOpen, c :: rest =>
    if c = '\x7b' then
      match pyFormatGo ctx .literal rest with
      | .ok out => .ok ('\x7b' :: out)
      | .error e => .error e
    else if c = '\x7d' then
      .error (.valueError "Replacement index 0 out of range")
    else pyFormatGo ctx (.field [c]) rest
  | .sawClose, c :: rest =>
    if c = '\x7d' then
      match pyFormatGo ctx .literal rest with
      | .ok out => .ok ('\x7d' :: out)
      | .error e => .error e
    else .error (.valueError "Single '\x7d' encountered in format string")
  | .field key, c :: rest =>
    if c = '\x7d' then
      match dictGet ctx (String.mk key.reverse) with
      | some v =>
        match pyFormatGo ctx .literal rest with
        | .ok out => .ok (v.data ++ out)
        | .error e => .error e
      | none => .error (.keyError (String.mk key.reverse))
    else if c = '\x7b' then
      .error (.valueError "unexpected '\x7b' in field name")
    else pyFormatGo ctx (.field (c :: key)) rest

/-- `template.format(**context)` on a whole string. -/
def pyFormat (ctx : Ctx) (template : String) : Except PyError String :=
  match pyFormatGo ctx .literal template.data with
  | .ok out => .ok (String.mk out)
  | .error e => .error e

/-- `_render_template` (staging/pipeline.py): wraps the `KeyError` from
`str.format` into a `StageError` whose message interpolates `str(exc)`,
Python's quoted rendering of the missing key; other exceptions
propagate unwrapped. -/
def _render_template (template : String) (context : Ctx) : Except PyError String :=
  match pyFormat context template with
  | .ok s => .ok s
  | .error (.keyError k) =>
    .error (.stageError ("Invalid template key " ++ pyRepr k ++ " in '" ++ template ++ "'"))
  | .error e => .error e

/-! ## Configuration (config.py) -/

/-- `ArtefactConfig` from config.py. -/
structure ArtefactConfig where
  source : String
  required : Bool := true
  output : Option String := none
  destination : Option String := none
  alternatives : List String := []
deriving DecidableEq

/-- `StagingConfig` from config.py; the workspace is an absolute,
already-resolved path. -/
structure StagingConfig where
  workspace : FPath
  bin_name : String
  dist_dir : String
  checksum_algorithm : String
  artefacts : List ArtefactConfig
  platform : String
  arch : String
  target : String
  bin_ext : String := ""
  staging_dir_template : String := "{bin_name}_{platform}_{arch}"
  target_key : Option String := none
deriving DecidableEq

/-- `StagingConfig.as_template_context`: the base mapping in insertion
order (`bin_ext or ""` and `target_key or ""` coincide with the stored
strings, the empty string being its own default), the template itself, then
the rendered staging-directory name.  The direct `str.format` call here
lets a `KeyError` escape unwrapped. -/
def as_template_context (cfg : StagingConfig) : Except PyError Ctx :=
  let base : Ctx := [
    ("workspace", posixOf cfg.workspace),
    ("bin_name", cfg.bin_name),
    ("dist_dir", cfg.dist_dir),
    ("checksum_algorithm", cfg.checksum_algorithm),
    ("platform", cfg.platform),
    ("arch", cfg.arch),
    ("target", cfg.target),
    ("bin_ext", cfg.bin_ext),
    ("target_key", cfg.target_key.getD "")]
  let templateContext := base ++ [("staging_dir_template", cfg.staging_dir_template)]
  match pyFormat templateContext cfg.staging_dir_template with
  | .ok rendered => .ok (templateContext ++ [("staging_dir_name", rendered)])
  | .error e => .error e

/-- The staging directory computed from an already-built context:
`workspace / dist_dir / staging_dir_name`. -/
def stagingDirFromCtx (cfg : StagingConfig) (context : Ctx) : FPath :=
  joinPath (joinPath cfg.workspace cfg.dist_dir)
    ((dictGet context "staging_dir_name").getD "")

/-- `StagingConfig.staging_dir()`. -/
def staging_dir_of (cfg : StagingConfig) : Except PyError FPath :=
  match as_template_context cfg with
  | .ok context => .ok (stagingDirFromCtx cfg context)
  | .error e => .error e

/-! ## Staging pipeline (staging/pipeline.py) -/

/-- `_RenderAttempt` from staging/pipeline.py. -/
structure RenderAttempt where
  template : String
  rendered : String
deriving DecidableEq

/-- The Path Resolver as the pipeline consumes it: given the live
filesystem, the workspace root and a rendered pattern,
`_match_candidate_path` either names an existing regular file or fails.
Its glob enumeration walks the host filesystem, so it enters the pipeline
model as a parameter. -/
abbrev Resolver := FS → FPath → String → Option FPath

/-- The attempt-trace fragment of the missing-artefact message:
`", ".join(f"{template!r} -> {rendered!r}")`. -/
def attemptLines (attempts : List RenderAttempt) : String :=
  pyJoin ", "
    (attempts.map (fun a => pyRepr a.template ++ " -> " ++ pyRepr a.rendered))

/-- Loop of `_resolve_artefact_source`: render each pattern, record the
attempt, stop at the first pattern the resolver matches. -/
def resolveSourceLoop (resolve : Resolver) (fs : FS) (workspace : FPath)
    (context : Ctx) : List String → List RenderAttempt →
    Except PyError (Option FPath × List RenderAttempt)
  | [], attempts => .ok (none, attempts)
  | pattern :: rest, attempts =>
    match _render_template pattern context with
    | .error e => .error e
    | .ok rendered =>
      match resolve fs workspace rendered with
      | some candidate => .ok (some candidate, attempts ++ [⟨pattern, rendered⟩])
      | none =>
        resolveSourceLoop resolve fs workspace context rest (attempts ++ [⟨pattern, rendered⟩])

/-- `_resolve_artefact_source`: try `source`, then each `alternatives`
entry in order. -/
def _resolve_artefact_source (resolve : Resolver) (fs : FS) (workspace : FPath)
    (artefact : ArtefactConfig) (context : Ctx) :
    Except PyError (Option FPath × List RenderAttempt) :=
  resolveSourceLoop resolve fs workspace context
    (artefact.source :: artefact.alternatives) []

/-- `_ensure_source_available`: `true` when the source resolved; a missing
required artefact raises the `StageError` carrying the workspace and the
attempt trace, a missing optional one prints the skip warning to stderr
(collected here) and yields `false`. -/
def _ensure_source_available (source_path : Option FPath)
    (artefact : ArtefactConfig) (attempts : List RenderAttempt)
    (workspace : FPath) : Except PyError (Bool × List String) :=
  match source_path with
  | some _ => .ok (true, [])
  | none =>
    if artefact.required then
      .error (.stageError ("Required artefact not found. Workspace=" ++
        posixOf workspace ++ " Attempts=[" ++ attemptLines attempts ++ "]"))
    else
      .ok (false,
        ["::warning title=Artefact Skipped::Optional artefact missing: " ++ artefact.source])

/-- `_safe_destination_path`: resolve the rendered destination against the
staging directory and reject resolved paths not contained in it; the
parent-directory creation is a no-op in the file-only model. -/
def _safe_destination_path (staging_dir : FPath) (destination : String) :
    Except PyError FPath :=
  let target := resolvePath (joinPath staging_dir destination)
  let staging_root := resolvePath staging_dir
  if pathUnder staging_root target then .ok target
  else .error (.stageError ("Destination escapes staging directory: " ++ destination))

/-- The per-artefact context of `_stage_single_artefact`: the run context
extended with `source_path` and `source_name`. -/
def artefactContextOf (context : Ctx) (source_path : FPath) : Ctx :=
  dictSet (dictSet context "source_path" (posixOf source_path))
    "source_name" (nameOf source_path)

/-- The rendered destination text of `_stage_single_artefact`: the
destination template rendered in the extended context when one is declared
and truthy, else the source's base name. -/
def destinationTextOf (context : Ctx) (artefact : ArtefactConfig)
    (source_path : FPath) : Except PyError String :=
  match artefact.destination with
  | some d =>
    if d = "" then .ok (nameOf source_path)
    else _render_template d (artefactContextOf context source_path)
  | none => .ok (nameOf source_path)

/-- `_stage_single_artefact`: render the destination, reject escapes,
unlink any existing file at the target, copy the source there, and log the
staged pair — the log line's `relative_to(config.workspace)` calls raise
`ValueError` after the copy when a path is not under the workspace, exactly
as `pathlib` does. -/
def _stage_single_artefact (cfg : StagingConfig) (staging_dir : FPath)
    (context : Ctx) (artefact : ArtefactConfig) (source_path : FPath)
    (fs : FS) : FS × Except PyError FPath :=
  match destinationTextOf context artefact source_path with
  | .error e => (fs, .error e)
  | .ok dtext =>
    match _safe_destination_path staging_dir dtext with
    | .error e => (fs, .error e)
    | .ok destination_path =>
      let fs1 :=
        if (fsGet fs destination_path).isSome then fsRemove fs destination_path else fs
      match fsGet fs1 source_path with
      | none => (fs1, .error (.osError "shutil.copy2: source file missing"))
      | some content =>
        let fs2 := fsSet fs1 destination_path content
        if pathUnder cfg.workspace source_path && pathUnder cfg.workspace destination_path then
          (fs2, .ok destination_path)
        else
          (fs2, .error (.valueError "path is not in the subpath of the workspace"))

/-- `_write_checksum`: hash the staged file's bytes with the configured
algorithm (the `hashlib` primitive is the `hash` parameter), write the
two-column sidecar named `<name>.<algorithm>` next to it, return the
digest. -/
def _write_checksum (hash : String → String → String) (path : FPath)
    (algorithm : String) (fs : FS) : FS × Except PyError String :=
  match fsGet fs path with
  | none => (fs, .error (.osError "checksum: staged file missing"))
  | some content =>
    let digest := hash algorithm content
    let checksum_path := path.dropLast ++ [nameOf path ++ "." ++ algorithm]
    (fsSet fs checksum_path (digest ++ "  " ++ nameOf path ++ "\n"), .ok digest)

/-- `StagedArtefact` from staging/pipeline.py. -/
structure StagedArtefact where
  path : FPath
  artefact : ArtefactConfig
  checksum : String
deriving DecidableEq

/-- One artefact iteration of `_iter_staged_artefacts`: resolve, handle a
missing source, stage, write the checksum sidecar, yield. -/
def stageStep (hash : String → String → String) (resolve : Resolver)
    (cfg : StagingConfig) (staging_dir : FPath) (context : Ctx) (fs : FS)
    (artefact : ArtefactConfig) :
    FS × List String × Option StagedArtefact × Option PyError :=
  match _resolve_artefact_source resolve fs cfg.workspace artefact context with
  | .error e => (fs, [], none, some e)
  | .ok (source_path, attempts) =>
    match _ensure_source_available source_path artefact attempts cfg.workspace with
    | .error e => (fs, [], none, some e)
    | .ok (available, warns) =>
      if available then
        match source_path with
        | some sp =>
          match _stage_single_artefact cfg staging_dir context artefact sp fs with
          | (fs1, .error e) => (fs1, warns, none, some e)
          | (fs1, .ok destination_path) =>
            match _write_checksum hash destination_path cfg.checksum_algorithm fs1 with
            | (fs2, .error e) => (fs2, warns, none, some e)
            | (fs2, .ok digest) =>
              (fs2, warns, some ⟨destination_path, artefact, digest⟩, none)
        | none =>
          (fs, warns, none, some (.osError "unreachable: available without a source path"))
      else
        (fs, warns, none, none)

/-- Outcome of the staging loop: the filesystem, the warnings printed, the
artefacts the generator yielded before any error, and the error if one was
raised. -/
structure IterResult where
  fs : FS
  warnings : List String
  staged : List StagedArtefact
  error : Option PyError
deriving DecidableEq

/-- `_iter_staged_artefacts` together with its consumer's accumulation:
artefacts are processed in declaration order and a raised error ends the
loop with the yields made so far. -/
def _iter_staged_artefacts (hash : String → String → String) (resolve : Resolver)
    (cfg : StagingConfig) (staging_dir : FPath) (context : Ctx) :
    List ArtefactConfig → FS → IterResult
  | [], fs => ⟨fs, [], [], none⟩
  | artefact :: rest, fs =>
    match stageStep hash resolve cfg staging_dir context fs artefact with
    | (fs1, warns, staged?, some e) => ⟨fs1, warns, staged?.toList, some e⟩
    | (fs1, warns, staged?, none) =>
      let r := _iter_staged_artefacts hash resolve cfg staging_dir context rest fs1
      ⟨r.fs, warns ++ r.warnings, staged?.toList ++ r.staged, r.error⟩

/-! ## Output assembly (staging/output.py) -/

/-- `RESERVED_OUTPUT_KEYS` from staging/output.py (a set; listed here in
source order, membership is what matters). -/
def RESERVED_OUTPUT_KEYS : List String :=
  ["artifact_dir", "dist_dir", "staged_files", "artefact_map", "checksum_map"]

/-- Python `sorted` on strings: ascending by code point, the order of the
character lists. -/
def pySortStrings (l : List String) : List String :=
  List.insertionSort (fun a b => a.data ≤ b.data) l

/-- Python `str()` of a list of strings, e.g. a one-element list prints as
`['artifact_dir']`. -/
def pyStrList (l : List String) : String :=
  "[" ++ pyJoin ", " (l.map pyRepr) ++ "]"

/-- `_validate_no_reserved_key_collisions`: `sorted(outputs.keys() &
RESERVED_OUTPUT_KEYS)` — the dict keys are unique, so filtering the key
list against the reserved set and sorting yields that sorted
intersection — and a `StageError` listing it when non-empty. -/
def _validate_no_reserved_key_collisions (outputs : List (String × FPath)) :
    Except PyError Unit :=
  let collisions := pySortStrings
    ((outputs.map (fun e => e.1)).filter (fun k => RESERVED_OUTPUT_KEYS.contains k))
  if collisions = [] then .ok ()
  else
    .error (.stageError
      ("Artefact outputs collide with reserved keys: " ++ pyStrList collisions))

/-- A value handed to the Output Writer: `str | list[str]`. -/
inductive OutVal
  | str (s : String)
  | list (xs : List String)
deriving DecidableEq

/-- Lower-case hexadecimal digit. -/
def hexDigit (n : Nat) : Char :=
  if n < 10 then Char.ofNat (48 + n) else Char.ofNat (87 + n)

/-- Four-digit hexadecimal rendering for `\uXXXX` escapes. -/
def hex4 (n : Nat) : List Char :=
  [hexDigit (n / 4096 % 16), hexDigit (n / 256 % 16), hexDigit (n / 16 % 16),
    hexDigit (n % 16)]

/-- `json.dumps` escaping of one character (default `ensure_ascii`: BMP
`\uXXXX` form for control and non-ASCII characters; astral characters,
which the pipeline never emits, are outside the model). -/
def jsonEscapeChar (c : Char) : List Char :=
  if c = '"' then ['\\', '"']
  else if c = '\\' then ['\\', '\\']
  else if c = '\n' then ['\\', 'n']
  else if c = '\r' then ['\\', 'r']
  else if c = '\t' then ['\\', 't']
  else if c = '\x08' then ['\\', 'b']
  else if c = '\x0c' then ['\\', 'f']
  else if c.toNat < 32 ∨ c.toNat > 126 then '\\' :: 'u' :: hex4 c.toNat
  else [c]

/-- `json.dumps` of a string. -/
def jsonStr (s : String) : String :=
  "\"" ++ String.mk (charMapJoin jsonEscapeChar s.data) ++ "\""

/-- `json.dumps` of a string-to-string mapping, in the order given
(CPython's default separators). -/
def jsonDumps (entries : List (String × String)) : String :=
  "\x7b" ++
    pyJoin ", " (entries.map (fun e => jsonStr e.1 ++ ": " ++ jsonStr e.2)) ++
    "\x7d"

/-- Python `sorted(d.items())` for a dict with string keys: the keys are
unique, so tuple comparison never reaches the values and this is a sort by
key. -/
def pySortPairs {α : Type} (l : List (String × α)) : List (String × α) :=
  List.insertionSort (fun a b => a.1.data ≤ b.1.data) l

/-- Python `sorted` on `Path` values: `PurePath.__lt__` compares the
case-normalized parts list — for POSIX paths the component list, compared
lexicographically with code-point string order on each component — not the
rendered path string (the two orders differ, e.g. `/s/app/g` precedes
`/s/app.d/f` by parts while the strings order the other way round). -/
def pySortPaths (l : List FPath) : List FPath :=
  List.insertionSort (fun a b => a.map String.data ≤ b.map String.data) l

/-- `_prepare_output_data` from staging/output.py. -/
def _prepare_output_data (staging_dir : FPath) (staged_paths : List FPath)
    (outputs : List (String × FPath)) (checksums : List (String × String)) :
    List (String × OutVal) :=
  let staged_file_names := (pySortPaths staged_paths).map nameOf
  let artefact_map_json :=
    jsonDumps ((pySortPairs outputs).map (fun e => (e.1, posixOf e.2)))
  let checksum_map_json := jsonDumps (pySortPairs checksums)
  let base : List (String × OutVal) := [
    ("artifact_dir", .str (posixOf staging_dir)),
    ("dist_dir", .str (posixOf staging_dir.dropLast)),
    ("staged_files", .str (pyJoin "\n" staged_file_names)),
    ("artefact_map", .str artefact_map_json),
    ("checksum_map", .str checksum_map_json)]
  outputs.foldl (fun acc e => dictSet acc e.1 (.str (posixOf e.2))) base

/-- One record of `write_github_output`: the heredoc block for a list
value, the escaped `key=value` line for a scalar. -/
def renderOutputRecord (k : String) (v : OutVal) : String :=
  match v with
  | .list xs =>
    let delimiter := "gh_" ++ k.toUpper
    k ++ "<<" ++ delimiter ++ "\n" ++ pyJoin "\n" xs ++ "\n" ++
      delimiter ++ "\n"
  | .str s => k ++ "=" ++ _escape_output_value s ++ "\n"

/-- `write_github_output`: append every record to the output file, never
truncating pre-existing content. -/
def write_github_output (file : FPath) (values : List (String × OutVal))
    (fs : FS) : FS :=
  fsSet fs file
    ((fsGet fs file).getD "" ++
      String.join (values.map (fun e => renderOutputRecord e.1 e.2)))

/-! ## The pipeline entry point -/

/-- `StageResult` from staging/pipeline.py. -/
structure StageResult where
  staging_dir : FPath
  staged_artefacts : List FPath
  outputs : List (String × FPath)
  checksums : List (String × String)
deriving DecidableEq

/-- The consumer loop of `stage_artefacts` over the yielded artefacts:
append the staged path, record `checksums[path.name]` (a dict update, so
the last artefact with a given base name wins), and record
`outputs[artefact.output]` for truthy output keys (`None` and the empty
string are falsy). -/
def accumulateStaged (staged : List StagedArtefact) :
    List FPath × List (String × FPath) × List (String × String) :=
  staged.foldl
    (fun acc s =>
      let paths := acc.1 ++ [s.path]
      let checks := dictSet acc.2.2 (nameOf s.path) s.checksum
      let outs :=
        match s.artefact.output with
        | some k => if k = "" then acc.2.1 else dictSet acc.2.1 k s.path
        | none => acc.2.1
      (paths, outs, checks))
    ([], [], [])

/-- `_initialize_staging_dir`: remove the staging directory recursively if
it exists, then recreate it (directory creation is a no-op for the
file-only filesystem; the removal acts on the OS-resolved path). -/
def _initialize_staging_dir (staging_dir : FPath) (fs : FS) : FS :=
  clearSubtree (resolvePath staging_dir) fs

/-- `stage_artefacts` (staging/pipeline.py): the full pipeline.  Returns
the final filesystem, the warnings printed to stderr, and either the
`StageResult` or the raised error.  `config.staging_dir()` and
`config.as_template_context()` both render the staging-directory template,
so a rendering error surfaces identically from either call. -/
def stageFinish (staging_dir github_output_file : FPath) (r : IterResult) :
    FS × List String × Except PyError StageResult :=
  match r.error with
  | some e => (r.fs, r.warnings, .error e)
  | none =>
    let acc := accumulateStaged r.staged
    if acc.1 = [] then
      (r.fs, r.warnings, .error (.stageError "No artefacts were staged."))
    else
      match _validate_no_reserved_key_collisions acc.2.1 with
      | .error e => (r.fs, r.warnings, .error e)
      | .ok _ =>
        let exported := _prepare_output_data staging_dir acc.1 acc.2.1 acc.2.2
        let fs2 := write_github_output github_output_file exported r.fs
        (fs2, r.warnings, .ok ⟨staging_dir, acc.1, acc.2.1, acc.2.2⟩)

def stage_artefacts (hash : String → String → String) (resolve : Resolver)
    (cfg : StagingConfig) (github_output_file : FPath) (fs : FS) :
    FS × List String × Except PyError StageResult :=
  match as_template_context cfg with
  | .error e => (fs, [], .error e)
  | .ok context =>
    let staging_dir := stagingDirFromCtx cfg context
    let fs0 := _initialize_staging_dir staging_dir fs
    stageFinish staging_dir github_output_file
      (_iter_staged_artefacts hash resolve cfg staging_dir context cfg.artefacts fs0)

/-! ## Concrete fixtures used by witnesses -/

/-- A literal-path resolver for concrete runs: the rendered pattern is
taken as a workspace-relative literal path that must name an existing
file (the glob-free branch of `_match_candidate_path`). -/
def litResolve : Resolver := fun fs ws r =>
  let p := ws ++ posixParts r
  if (fsGet fs p).isSome then some p else none

/-- A concrete stand-in for `hashlib`: deterministic digest of the
algorithm name and content. -/
def testHash : String → String → String := fun alg c => alg ++ ":" ++ c

/-- Configuration with two descriptors that declare the same output key,
mirroring the repository test `test_stage_artefacts_rejects_duplicate_outputs`
and end-to-end scenario 4 of the specification. -/
def cfgDupOutputs : StagingConfig :=
  { workspace := ["w"], bin_name := "app", dist_dir := "dist",
    checksum_algorithm := "sha256",
    artefacts := [
      { source := "a.txt", output := some "binary_path" },
      { source := "b.txt", output := some "binary_path" }],
    platform := "linux", arch := "amd64", target := "t" }

/-- Configuration with two descriptors that render the same destination,
mirroring `test_stage_artefacts_rejects_duplicate_destinations`. -/
def cfgDupDestinations : StagingConfig :=
  { workspace := ["w"], bin_name := "app", dist_dir := "dist",
    checksum_algorithm := "sha256",
    artefacts := [
      { source := "a.txt", destination := some "same.bin" },
      { source := "b.txt", destination := some "same.bin" }],
    platform := "linux", arch := "amd64", target := "t" }

/-- Workspace with the two source files the fixture configurations use. -/
def fsTwoSources : FS := [(["w", "a.txt"], "AAA"), (["w", "b.txt"], "BBB")]

/-- C1: contrary to the claim, `stage_artefacts` performs no duplicate
validation at all.  Two descriptors declaring the same output key run to
success — the later one silently overwrites the `outputs` binding — and
two descriptors rendering the same destination also run to success, the
second copy overwriting the first file, with the duplicated path listed
twice.  The repository's own tests
(`test_stage_artefacts_rejects_duplicate_outputs`,
`test_stage_artefacts_rejects_duplicate_destinations`) and the
specification both demand a `StageError` naming the duplicate, so the code
is missing its validation step. -/
theorem C1_duplicates_not_rejected :
    (stage_artefacts testHash litResolve cfgDupOutputs ["gh", "out.txt"]
        fsTwoSources).2.2 =
      Except.ok ⟨["w", "dist", "app_linux_amd64"],
        [["w", "dist", "app_linux_amd64", "a.txt"],
          ["w", "dist", "app_linux_amd64", "b.txt"]],
        [("binary_path", ["w", "dist", "app_linux_amd64", "b.txt"])],
        [("a.txt", "sha256:AAA"), ("b.txt", "sha256:BBB")]⟩ ∧
    (stage_artefacts testHash litResolve cfgDupDestinations ["gh", "out.txt"]
        fsTwoSources).2.2 =
      Except.ok ⟨["w", "dist", "app_linux_amd64"],
        [["w", "dist", "app_linux_amd64", "same.bin"],
          ["w", "dist", "app_linux_amd64", "same.bin"]],
        [],
        [("same.bin", "sha256:BBB")]⟩ := by
  constructor <;> decide

/-! ## Dictionary lemmas -/

theorem dictGet_cons {α : Type} (e : String × α) (rest : List (String × α))
    (k : String) :
    dictGet (e :: rest) k = if e.1 == k then some e.2 else dictGet rest k := by
  by_cases h : e.1 == k
  · simp [dictGet, List.find?_cons, h]
  · simp [dictGet, List.find?_cons, h]

theorem dictGet_append {α : Type} (d1 d2 : List (String × α)) (k : String) :
    dictGet (d1 ++ d2) k =
      match dictGet d1 k with
      | some v => some v
      | none => dictGet d2 k := by
  induction d1 with
  | nil => simp [dictGet]
  | cons e rest ih =>
    rw [List.cons_append, dictGet_cons, dictGet_cons]
    by_cases h : e.1 == k <;> simp [h, ih]

theorem dictGet_none_of_all_ne {α : Type} (d : List (String × α)) (k : String)
    (h : ∀ e ∈ d, ¬(e.1 == k)) : dictGet d k = none := by
  induction d with
  | nil => rfl
  | cons e rest ih =>
    rw [dictGet_cons, if_neg (h e (List.mem_cons_self _ _))]
    exact ih (fun e' he' => h e' (List.mem_cons.mpr (Or.inr he')))

theorem dictGet_map_update_ne {α : Type} (d : List (String × α)) (k k' : String)
    (v : α) (h : k' ≠ k) :
    dictGet (d.map (fun e => if e.1 == k then (k, v) else e)) k' = dictGet d k' := by
  induction d with
  | nil => rfl
  | cons e rest ih =>
    rw [List.map_cons, dictGet_cons, dictGet_cons]
    by_cases he : e.1 == k
    · have h1 : (k == k') = false := by
        simp only [beq_eq_false_iff_ne]
        exact fun hk => h hk.symm
      have h2 : (e.1 == k') = false := by
        simp only [beq_eq_false_iff_ne]
        have : e.1 = k := by simpa using he
        rw [this]
        exact fun hk => h hk.symm
      simp only [he, if_pos, if_true, h1, h2, Bool.false_eq_true, if_false]
      exact ih
    · have he2 : (e.1 == k) = false := by
        simpa using he
      simp only [he2, Bool.false_eq_true, if_false]
      by_cases h2 : e.1 == k'
      · rw [if_pos h2, if_pos h2]
      · rw [if_neg h2, if_neg h2]
        exact ih

theorem dictGet_dictSet_self {α : Type} (d : List (String × α)) (k : String) (v : α) :
    dictGet (dictSet d k v) k = some v := by
  rw [dictSet]
  by_cases hany : d.any (fun e => e.1 == k)
  · rw [if_pos hany]
    induction d with
    | nil => simp at hany
    | cons e rest ih =>
      rw [List.map_cons, dictGet_cons]
      by_cases he : e.1 == k
      · simp [he]
      · simp only [he, Bool.false_eq_true, if_false]
        have hrest : rest.any (fun e => e.1 == k) := by
          rcases List.any_eq_true.mp hany with ⟨x, hx, hxk⟩
          rcases List.mem_cons.mp hx with h1 | h1
          · exact absurd (h1 ▸ hxk) (by simp [he])
          · exact List.any_eq_true.mpr ⟨x, h1, hxk⟩
        exact ih hrest
  · rw [if_neg hany, dictGet_append,
      dictGet_none_of_all_ne d k (fun e he hk => hany (List.any_eq_true.mpr ⟨e, he, hk⟩))]
    simp [dictGet_cons]

theorem dictGet_dictSet_ne {α : Type} (d : List (String × α)) (k k' : String)
    (v : α) (h : k' ≠ k) :
    dictGet (dictSet d k v) k' = dictGet d k' := by
  rw [dictSet]
  by_cases hany : d.any (fun e => e.1 == k)
  · rw [if_pos hany]
    exact dictGet_map_update_ne d k k' v h
  · rw [if_neg hany, dictGet_append]
    have hkk : ¬((k, v).1 == k') = true := by
      simp only [beq_iff_eq]
      exact fun hk => h hk.symm
    have hnone : dictGet [(k, v)] k' = none := by
      rw [dictGet_cons, if_neg hkk]
      rfl
    rw [hnone]
    cases dictGet d k' <;> rfl

/-! ## Sorting lemmas -/

theorem eq_of_perm_of_sorted_key {α β : Type} [LinearOrder β] (key : α → β) :
    ∀ (l1 l2 : List α), l1.Perm l2 →
      l1.Sorted (fun a b => key a ≤ key b) →
      l2.Sorted (fun a b => key a ≤ key b) →
      (l1.map key).Nodup → l1 = l2 := by
  intro l1
  induction l1 with
  | nil =>
    intro l2 h _ _ _
    exact (h.nil_eq).symm ▸ rfl
  | cons a t1 ih =>
    intro l2 h hs1 hs2 hnd
    cases l2 with
    | nil => exact absurd h.symm.nil_eq (by simp)
    | cons b t2 =>
      have hab : a = b := by
        have hain : a ∈ b :: t2 := h.mem_iff.mp (List.mem_cons_self _ _)
        have hbin : b ∈ a :: t1 := h.mem_iff.mpr (List.mem_cons_self _ _)
        rcases List.mem_cons.mp hain with h1 | h1
        · exact h1
        · rcases List.mem_cons.mp hbin with h2 | h2
          · exact h2.symm
          · exfalso
            have hba : key b ≤ key a := ((List.sorted_cons.mp hs2).1) a h1
            have hab2 : key a ≤ key b := ((List.sorted_cons.mp hs1).1) b h2
            have hk : key a = key b := le_antisymm hab2 hba
            have : key b ∈ t1.map key := List.mem_map.mpr ⟨b, h2, rfl⟩
            rw [← hk] at this
            exact (List.nodup_cons.mp (by simpa using hnd)).1 this
      subst hab
      have htp : t1.Perm t2 := h.cons_inv
      have := ih t2 htp (List.sorted_cons.mp hs1).2 (List.sorted_cons.mp hs2).2
        (List.nodup_cons.mp (by simpa using hnd)).2
      rw [this]

theorem insertionSort_key_unique {α β : Type} [LinearOrder β] (key : α → β)
    (l1 l2 : List α) (h : l1.Perm l2) (hnd : (l1.map key).Nodup) :
    List.insertionSort (fun a b => key a ≤ key b) l1 =
      List.insertionSort (fun a b => key a ≤ key b) l2 := by
  haveI : IsTotal α (fun a b => key a ≤ key b) := ⟨fun a b => le_total _ _⟩
  haveI : IsTrans α (fun a b => key a ≤ key b) :=
    ⟨fun a b c hab hbc => le_trans hab hbc⟩
  apply eq_of_perm_of_sorted_key key
  · exact (List.perm_insertionSort _ l1).trans (h.trans (List.perm_insertionSort _ l2).symm)
  · exact List.sorted_insertionSort _ l1
  · exact List.sorted_insertionSort _ l2
  · exact (((List.perm_insertionSort _ l1).map key).symm).nodup hnd

theorem dictGet_foldl_dictSet_ne {α β : Type} (g : (String × β) → α) (k : String) :
    ∀ (l : List (String × β)) (base : List (String × α)),
      (∀ e ∈ l, e.1 ≠ k) →
      dictGet (l.foldl (fun acc e => dictSet acc e.1 (g e)) base) k = dictGet base k := by
  intro l
  induction l with
  | nil => intro base _; rfl
  | cons e rest ih =>
    intro base hne
    rw [List.foldl_cons]
    rw [ih (dictSet base e.1 (g e)) (fun x hx => hne x (List.mem_cons.mpr (Or.inr hx)))]
    exact dictGet_dictSet_ne base e.1 k (g e)
      (fun hk => hne e (List.mem_cons_self _ _) hk.symm)

/-- C8 as stated is false: when staged destinations sit in different
subdirectories, `staged_files` is the newline-join of the base names of the
path-sorted staged list, not the sorted list of base names. -/
theorem C8_staged_files_counterexample :
    dictGet (_prepare_output_data ["w", "dist", "s"]
        [["w", "dist", "s", "a", "z.txt"], ["w", "dist", "s", "b", "a.txt"]] [] [])
      "staged_files" = some (.str "z.txt\na.txt") ∧
    pyJoin "\n"
        (pySortStrings ([["w", "dist", "s", "a", "z.txt"],
          ["w", "dist", "s", "b", "a.txt"]].map nameOf)) = "a.txt\nz.txt" ∧
    ("z.txt\na.txt" : String) ≠ "a.txt\nz.txt" :=
  ⟨by decide, by decide, by decide⟩

theorem dictGet_cons_ne {α : Type} (e : String × α) (rest : List (String × α))
    (k : String) (h : (e.1 == k) = false) :
    dictGet (e :: rest) k = dictGet rest k := by
  rw [dictGet_cons, if_neg (by simp [h])]

theorem dictGet_cons_eq {α : Type} (e : String × α) (rest : List (String × α))
    (k : String) (h : (e.1 == k) = true) :
    dictGet (e :: rest) k = some e.2 := by
  rw [dictGet_cons, if_pos h]

/-- C8 amended: `staged_files` is the newline-join of the base names of
the staged paths sorted in `PurePath` order, i.e. by their parts list
(this equals the sorted base-name list exactly when all staged files sit
directly in the staging directory); `artefact_map` and `checksum_map` are
JSON objects whose keys are in sorted order; and all three values are
independent of descriptor declaration order (invariant under permutation
of the inputs). -/
theorem C8_output_payload_sorted (staging_dir : FPath) (staged : List FPath)
    (outputs : List (String × FPath)) (checksums : List (String × String))
    (houts : ∀ e ∈ outputs, ¬RESERVED_OUTPUT_KEYS.contains e.1) :
    dictGet (_prepare_output_data staging_dir staged outputs checksums) "staged_files" =
      some (.str (pyJoin "\n" ((pySortPaths staged).map nameOf))) ∧
    dictGet (_prepare_output_data staging_dir staged outputs checksums) "artefact_map" =
      some (.str (jsonDumps ((pySortPairs outputs).map (fun e => (e.1, posixOf e.2))))) ∧
    dictGet (_prepare_output_data staging_dir staged outputs checksums) "checksum_map" =
      some (.str (jsonDumps (pySortPairs checksums))) ∧
    ((pySortPairs outputs).map (fun e => e.1)).Sorted (fun a b => a.data ≤ b.data) ∧
    (pySortPairs outputs).Perm outputs ∧
    ((pySortPairs checksums).map (fun e => e.1)).Sorted (fun a b => a.data ≤ b.data) ∧
    (pySortPairs checksums).Perm checksums ∧
    (∀ (staged' : List FPath) (outputs' : List (String × FPath))
        (checksums' : List (String × String)),
      staged.Perm staged' → outputs.Perm outputs' → checksums.Perm checksums' →
      (staged.map (fun p => p.map String.data)).Nodup →
      (outputs.map (fun e => e.1.data)).Nodup →
      (checksums.map (fun e => e.1.data)).Nodup →
      pySortPaths staged' = pySortPaths staged ∧
      pySortPairs outputs' = pySortPairs outputs ∧
      pySortPairs checksums' = pySortPairs checksums) := by
  have hpre : _prepare_output_data staging_dir staged outputs checksums =
      outputs.foldl (fun acc e => dictSet acc e.1 (.str (posixOf e.2)))
        [("artifact_dir", .str (posixOf staging_dir)),
         ("dist_dir", .str (posixOf staging_dir.dropLast)),
         ("staged_files", .str (pyJoin "\n" ((pySortPaths staged).map nameOf))),
         ("artefact_map", .str (jsonDumps ((pySortPairs outputs).map (fun e => (e.1, posixOf e.2))))),
         ("checksum_map", .str (jsonDumps (pySortPairs checksums)))] := rfl
  have hkeys : ∀ k0 : String, RESERVED_OUTPUT_KEYS.contains k0 →
      ∀ (base : List (String × OutVal)),
      dictGet (outputs.foldl (fun acc e => dictSet acc e.1 (.str (posixOf e.2))) base) k0 =
        dictGet base k0 := by
    intro k0 hk0 base
    apply dictGet_foldl_dictSet_ne
    intro e he hek
    exact houts e he (hek ▸ hk0)
  refine ⟨?_, ?_, ?_, ?_, List.perm_insertionSort _ outputs, ?_,
    List.perm_insertionSort _ checksums, ?_⟩
  · rw [hpre, hkeys "staged_files" (by decide), dictGet_cons_ne _ _ _ (show (("artifact_dir" : String) == "staged_files") = false by decide),
      dictGet_cons_ne _ _ _ (show (("dist_dir" : String) == "staged_files") = false by decide),
      dictGet_cons_eq _ _ _ (show (("staged_files" : String) == "staged_files") = true by decide)]
  · rw [hpre, hkeys "artefact_map" (by decide), dictGet_cons_ne _ _ _ (show (("artifact_dir" : String) == "artefact_map") = false by decide),
      dictGet_cons_ne _ _ _ (show (("dist_dir" : String) == "artefact_map") = false by decide),
      dictGet_cons_ne _ _ _ (show (("staged_files" : String) == "artefact_map") = false by decide),
      dictGet_cons_eq _ _ _ (show (("artefact_map" : String) == "artefact_map") = true by decide)]
  · rw [hpre, hkeys "checksum_map" (by decide), dictGet_cons_ne _ _ _ (show (("artifact_dir" : String) == "checksum_map") = false by decide),
      dictGet_cons_ne _ _ _ (show (("dist_dir" : String) == "checksum_map") = false by decide),
      dictGet_cons_ne _ _ _ (show (("staged_files" : String) == "checksum_map") = false by decide),
      dictGet_cons_ne _ _ _ (show (("artefact_map" : String) == "checksum_map") = false by decide),
      dictGet_cons_eq _ _ _ (show (("checksum_map" : String) == "checksum_map") = true by decide)]
  · haveI : IsTotal (String × FPath) (fun a b => a.1.data ≤ b.1.data) :=
      ⟨fun a b => le_total _ _⟩
    haveI : IsTrans (String × FPath) (fun a b => a.1.data ≤ b.1.data) :=
      ⟨fun a b c hab hbc => le_trans hab hbc⟩
    exact List.pairwise_map.mpr (List.sorted_insertionSort _ outputs)
  · haveI : IsTotal (String × String) (fun a b => a.1.data ≤ b.1.data) :=
      ⟨fun a b => le_total _ _⟩
    haveI : IsTrans (String × String) (fun a b => a.1.data ≤ b.1.data) :=
      ⟨fun a b c hab hbc => le_trans hab hbc⟩
    exact List.pairwise_map.mpr (List.sorted_insertionSort _ checksums)
  · intro staged2 outputs2 checksums2 hps hpo hpc hnds hndo hndc
    refine ⟨?_, ?_, ?_⟩
    · exact insertionSort_key_unique (fun p => p.map String.data) staged2 staged hps.symm
        ((hps.map _).nodup hnds)
    · exact insertionSort_key_unique (fun e => e.1.data) outputs2 outputs hpo.symm
        ((hpo.map _).nodup hndo)
    · exact insertionSort_key_unique (fun e => e.1.data) checksums2 checksums hpc.symm
        ((hpc.map _).nodup hndc)

/-- Concrete check of C8 amended: two staged paths out of name order. -/
theorem C8_output_payload_sorted_witness :
    (∀ e ∈ ([("k", ["w", "s", "a.txt"])] : List (String × FPath)),
      ¬RESERVED_OUTPUT_KEYS.contains e.1) ∧
    dictGet (_prepare_output_data ["w", "s"]
        [["w", "s", "b.txt"], ["w", "s", "a.txt"]]
        [("k", ["w", "s", "a.txt"])] [("a.txt", "d")]) "staged_files" =
      some (.str (pyJoin "\n"
        ((pySortPaths [["w", "s", "b.txt"], ["w", "s", "a.txt"]]).map nameOf))) :=
  ⟨by decide, (C8_output_payload_sorted ["w", "s"]
    [["w", "s", "b.txt"], ["w", "s", "a.txt"]]
    [("k", ["w", "s", "a.txt"])] [("a.txt", "d")] (by decide)).1⟩

/-! ## C4: fallback resolution order -/

theorem resolveSourceLoop_all_fail (resolve : Resolver) (fs : FS) (ws : FPath)
    (context : Ctx) (rend : String → String) :
    ∀ (pats : List String) (attempts : List RenderAttempt),
      (∀ p ∈ pats, _render_template p context = .ok (rend p)) →
      (∀ p ∈ pats, resolve fs ws (rend p) = none) →
      resolveSourceLoop resolve fs ws context pats attempts =
        .ok (none, attempts ++ pats.map (fun p => ⟨p, rend p⟩)) := by
  intro pats
  induction pats with
  | nil => intro attempts _ _; simp [resolveSourceLoop]
  | cons p rest ih =>
    intro attempts hr hn
    have h1 := hr p (List.mem_cons_self _ _)
    have h2 := hn p (List.mem_cons_self _ _)
    simp only [resolveSourceLoop, h1, h2, List.append_eq]
    have hrec := ih (attempts ++ [RenderAttempt.mk p (rend p)])
      (fun q hq => hr q (List.mem_cons.mpr (Or.inr hq)))
      (fun q hq => hn q (List.mem_cons.mpr (Or.inr hq)))
    rw [hrec]
    simp

theorem resolveSourceLoop_first_hit (resolve : Resolver) (fs : FS) (ws : FPath)
    (context : Ctx) (rend : String → String) :
    ∀ (l1 : List String) (p : String) (l2 : List String)
      (attempts : List RenderAttempt) (c : FPath),
      (∀ q ∈ l1 ++ [p], _render_template q context = .ok (rend q)) →
      (∀ q ∈ l1, resolve fs ws (rend q) = none) →
      resolve fs ws (rend p) = some c →
      resolveSourceLoop resolve fs ws context (l1 ++ p :: l2) attempts =
        .ok (some c, (attempts ++ l1.map (fun q => ⟨q, rend q⟩)) ++ [⟨p, rend p⟩]) := by
  intro l1
  induction l1 with
  | nil =>
    intro p l2 attempts c hr _ hc
    have h1 := hr p (by simp)
    simp only [List.nil_append, resolveSourceLoop, h1, hc]
    simp
  | cons q qs ih =>
    intro p l2 attempts c hr hn hc
    have h1 := hr q (by simp)
    have h2 := hn q (List.mem_cons_self _ _)
    simp only [List.cons_append, resolveSourceLoop, h1, h2, List.append_eq]
    have hrec := ih p l2 (attempts ++ [RenderAttempt.mk q (rend q)]) c
      (fun x hx => hr x (by simp at hx ⊢; tauto))
      (fun x hx => hn x (List.mem_cons.mpr (Or.inr hx))) hc
    rw [hrec]
    simp

/-- C4: artefact source resolution renders and tries the `source` pattern
first and then each `alternatives` entry in declared order; it stops at the
first pattern the resolver matches, with the attempt list recording exactly
the patterns tried so far in order (later alternatives are never
consulted), and it reports not-found together with the full attempt list
only when every pattern failed. -/
theorem C4_fallback_order (resolve : Resolver) (fs : FS) (workspace : FPath)
    (artefact : ArtefactConfig) (context : Ctx) (rend : String → String)
    (hR : ∀ p ∈ artefact.source :: artefact.alternatives,
      _render_template p context = .ok (rend p)) :
    ((∀ p ∈ artefact.source :: artefact.alternatives,
        resolve fs workspace (rend p) = none) →
      _resolve_artefact_source resolve fs workspace artefact context =
        .ok (none, (artefact.source :: artefact.alternatives).map
          (fun p => ⟨p, rend p⟩))) ∧
    (∀ (l1 : List String) (p : String) (l2 : List String) (c : FPath),
      artefact.source :: artefact.alternatives = l1 ++ p :: l2 →
      (∀ q ∈ l1, resolve fs workspace (rend q) = none) →
      resolve fs workspace (rend p) = some c →
      _resolve_artefact_source resolve fs workspace artefact context =
        .ok (some c, l1.map (fun q => ⟨q, rend q⟩) ++ [⟨p, rend p⟩])) := by
  constructor
  · intro hall
    rw [_resolve_artefact_source,
      resolveSourceLoop_all_fail resolve fs workspace context rend _ [] hR hall]
    simp
  · intro l1 p l2 c hsplit hfail hhit
    rw [_resolve_artefact_source, hsplit,
      resolveSourceLoop_first_hit resolve fs workspace context rend l1 p l2 [] c
        (fun x hx => by
          rw [hsplit] at hR
          apply hR
          simp at hx ⊢
          tauto)
        hfail hhit]
    simp

/-- Concrete check of C4: the first alternative resolves, so the second is
never consulted and the attempt list stops there. -/
theorem C4_fallback_order_witness :
    (∀ p ∈ ("src.bin" :: ["alt1.bin", "alt2.bin"]),
      _render_template p [] = .ok p) ∧
    (fun _ _ r => if r = "alt1.bin" then some (["w", "alt1.bin"] : FPath) else none :
        Resolver) [] ["w"] "alt1.bin" = some ["w", "alt1.bin"] ∧
    _resolve_artefact_source
        (fun _ _ r => if r = "alt1.bin" then some ["w", "alt1.bin"] else none)
        [] ["w"]
        { source := "src.bin", alternatives := ["alt1.bin", "alt2.bin"] } [] =
      .ok (some ["w", "alt1.bin"],
        [⟨"src.bin", "src.bin"⟩, ⟨"alt1.bin", "alt1.bin"⟩]) :=
  ⟨by decide, by decide,
    (C4_fallback_order
      (fun _ _ r => if r = "alt1.bin" then some ["w", "alt1.bin"] else none)
      [] ["w"] { source := "src.bin", alternatives := ["alt1.bin", "alt2.bin"] }
      [] (fun p => p) (by decide)).2
      ["src.bin"] "alt1.bin" ["alt2.bin"] ["w", "alt1.bin"]
      (by decide) (by decide) (by decide)⟩

/-! ## Filesystem lemmas -/

theorem fsGet_cons (e : FPath × String) (rest : FS) (p : FPath) :
    fsGet (e :: rest) p = if e.1 == p then some e.2 else fsGet rest p := by
  by_cases h : e.1 == p
  · simp [fsGet, List.find?_cons, h]
  · simp [fsGet, List.find?_cons, h]

theorem fsGet_append (d1 d2 : FS) (p : FPath) :
    fsGet (d1 ++ d2) p =
      match fsGet d1 p with
      | some v => some v
      | none => fsGet d2 p := by
  induction d1 with
  | nil => simp [fsGet]
  | cons e rest ih =>
    rw [List.cons_append, fsGet_cons, fsGet_cons]
    by_cases h : e.1 == p <;> simp [h, ih]

theorem fsGet_none_of_all_ne (d : FS) (p : FPath)
    (h : ∀ e ∈ d, ¬(e.1 == p)) : fsGet d p = none := by
  induction d with
  | nil => rfl
  | cons e rest ih =>
    rw [fsGet_cons, if_neg (h e (List.mem_cons_self _ _))]
    exact ih (fun e' he' => h e' (List.mem_cons.mpr (Or.inr he')))

theorem fsGet_fsSet_self (fs : FS) (p : FPath) (v : String) :
    fsGet (fsSet fs p v) p = some v := by
  rw [fsSet]
  by_cases hany : fs.any (fun e => e.1 == p)
  · rw [if_pos hany]
    induction fs with
    | nil => simp at hany
    | cons e rest ih =>
      rw [List.map_cons, fsGet_cons]
      by_cases he : e.1 == p
      · simp [he]
      · simp only [he, Bool.false_eq_true, if_false]
        have hrest : rest.any (fun e => e.1 == p) := by
          rcases List.any_eq_true.mp hany with ⟨x, hx, hxk⟩
          rcases List.mem_cons.mp hx with h1 | h1
          · exact absurd (h1 ▸ hxk) (by simp [he])
          · exact List.any_eq_true.mpr ⟨x, h1, hxk⟩
        exact ih hrest
  · rw [if_neg hany, fsGet_append,
      fsGet_none_of_all_ne fs p (fun e he hk => hany (List.any_eq_true.mpr ⟨e, he, hk⟩))]
    simp [fsGet_cons]

theorem fsGet_map_update_ne (fs : FS) (p q : FPath) (v : String) (h : q ≠ p) :
    fsGet (fs.map (fun e => if e.1 == p then (p, v) else e)) q = fsGet fs q := by
  induction fs with
  | nil => rfl
  | cons e rest ih =>
    rw [List.map_cons, fsGet_cons, fsGet_cons]
    by_cases he : e.1 == p
    · have h1 : (p == q) = false := by
        simp only [beq_eq_false_iff_ne]
        exact fun hk => h hk.symm
      have h2 : (e.1 == q) = false := by
        simp only [beq_eq_false_iff_ne]
        have he2 : e.1 = p := by simpa using he
        rw [he2]
        exact fun hk => h hk.symm
      have he3 : (e.1 == p) = true := he
      simp only [he3, if_true, h1, h2, Bool.false_eq_true, if_false]
      exact ih
    · have he2 : (e.1 == p) = false := by simpa using he
      simp only [he2, Bool.false_eq_true, if_false]
      by_cases h2 : e.1 == q
      · rw [if_pos h2, if_pos h2]
      · rw [if_neg h2, if_neg h2]
        exact ih

theorem fsGet_fsSet_ne (fs : FS) (p q : FPath) (v : String) (h : q ≠ p) :
    fsGet (fsSet fs p v) q = fsGet fs q := by
  rw [fsSet]
  by_cases hany : fs.any (fun e => e.1 == p)
  · rw [if_pos hany]
    exact fsGet_map_update_ne fs p q v h
  · rw [if_neg hany, fsGet_append]
    have hkk : ¬((p, v).1 == q) = true := by
      simp only [beq_iff_eq]
      exact fun hk => h hk.symm
    have hnone : fsGet [(p, v)] q = none := by
      rw [fsGet_cons, if_neg hkk]
      rfl
    rw [hnone]
    cases fsGet fs q <;> rfl

theorem fsGet_fsRemove_ne (fs : FS) (p q : FPath) (h : q ≠ p) :
    fsGet (fsRemove fs p) q = fsGet fs q := by
  induction fs with
  | nil => rfl
  | cons e rest ih =>
    rw [fsRemove, List.filter_cons]
    by_cases he : e.1 == p
    · simp only [he, Bool.not_true, Bool.false_eq_true, if_false]
      rw [fsGet_cons, if_neg ?_]
      · exact ih
      · have he' : e.1 = p := by simpa using he
        simp only [he', beq_iff_eq]
        exact fun hk => h hk.symm
    · have he2 : (e.1 == p) = false := by simpa using he
      simp only [he2, Bool.not_false, if_true]
      rw [fsGet_cons, fsGet_cons]
      by_cases h2 : e.1 == q
      · rw [if_pos h2, if_pos h2]
      · rw [if_neg h2, if_neg h2]
        exact ih

/-! ## Pipeline decomposition lemmas -/

theorem iter_append (hash : String → String → String) (resolve : Resolver)
    (cfg : StagingConfig) (staging_dir : FPath) (context : Ctx) :
    ∀ (l1 l2 : List ArtefactConfig) (fs : FS),
      _iter_staged_artefacts hash resolve cfg staging_dir context (l1 ++ l2) fs =
        (let r1 := _iter_staged_artefacts hash resolve cfg staging_dir context l1 fs
        match r1.error with
        | some e => ⟨r1.fs, r1.warnings, r1.staged, some e⟩
        | none =>
          let r2 := _iter_staged_artefacts hash resolve cfg staging_dir context l2 r1.fs
          ⟨r2.fs, r1.warnings ++ r2.warnings, r1.staged ++ r2.staged, r2.error⟩) := by
  intro l1
  induction l1 with
  | nil =>
    intro l2 fs
    show _iter_staged_artefacts hash resolve cfg staging_dir context l2 fs = _
    simp [_iter_staged_artefacts]
  | cons a rest ih =>
    intro l2 fs
    rw [List.cons_append, _iter_staged_artefacts, _iter_staged_artefacts]
    cases hstep : stageStep hash resolve cfg staging_dir context fs a with
    | mk fs1 rest1 =>
      obtain ⟨warns, staged?, err?⟩ := rest1
      cases err? with
      | some e => simp
      | none =>
        simp only []
        rw [ih l2 fs1]
        cases herr : (_iter_staged_artefacts hash resolve cfg staging_dir context rest fs1).error with
        | some e => simp [herr]
        | none => simp [herr]

/-- C6: every rendered destination string (`..` segments and absolute
paths included) is resolved against the staging directory;
`_safe_destination_path` rejects it with a `StageError` when the resolved
path is not contained in the staging directory, `_stage_single_artefact`
raises that error with the filesystem untouched — so the rejection happens
before any copy of that artefact — and at the pipeline level the run
aborts at that point, the final filesystem being the one from before the
offending artefact.  A contained destination stages the copied file at
exactly the resolved target inside the staging directory. -/
theorem C6_destination_containment (hash : String → String → String)
    (resolve : Resolver) (cfg : StagingConfig) (github_output_file : FPath)
    (fs : FS) (context : Ctx) (staging_dir : FPath)
    (hcx : as_template_context cfg = .ok context)
    (hsd : staging_dir = stagingDirFromCtx cfg context) :
    (∀ destination : String,
      pathUnder (resolvePath staging_dir)
        (resolvePath (joinPath staging_dir destination)) = false →
      _safe_destination_path staging_dir destination =
        .error (.stageError ("Destination escapes staging directory: " ++ destination))) ∧
    (∀ (artefact : ArtefactConfig) (sp : FPath) (fs1 : FS) (dtext : String),
      destinationTextOf context artefact sp = .ok dtext →
      pathUnder (resolvePath staging_dir)
        (resolvePath (joinPath staging_dir dtext)) = false →
      _stage_single_artefact cfg staging_dir context artefact sp fs1 =
        (fs1, .error (.stageError ("Destination escapes staging directory: " ++ dtext)))) ∧
    (∀ (artefact : ArtefactConfig) (sp : FPath) (fs1 : FS) (dtext content : String),
      destinationTextOf context artefact sp = .ok dtext →
      pathUnder (resolvePath staging_dir)
        (resolvePath (joinPath staging_dir dtext)) = true →
      sp ≠ resolvePath (joinPath staging_dir dtext) →
      fsGet fs1 sp = some content →
      pathUnder cfg.workspace sp = true →
      pathUnder cfg.workspace (resolvePath (joinPath staging_dir dtext)) = true →
      (_stage_single_artefact cfg staging_dir context artefact sp fs1).2 =
          .ok (resolvePath (joinPath staging_dir dtext)) ∧
        fsGet (_stage_single_artefact cfg staging_dir context artefact sp fs1).1
          (resolvePath (joinPath staging_dir dtext)) = some content) ∧
    (∀ (pre post : List ArtefactConfig) (artefact : ArtefactConfig)
        (fs1 : FS) (w1 : List String) (s1 : List StagedArtefact)
        (sp : FPath) (attempts : List RenderAttempt) (dtext : String),
      cfg.artefacts = pre ++ artefact :: post →
      _iter_staged_artefacts hash resolve cfg staging_dir context pre
          (_initialize_staging_dir staging_dir fs) = ⟨fs1, w1, s1, none⟩ →
      _resolve_artefact_source resolve fs1 cfg.workspace artefact context =
        .ok (some sp, attempts) →
      destinationTextOf context artefact sp = .ok dtext →
      pathUnder (resolvePath staging_dir)
        (resolvePath (joinPath staging_dir dtext)) = false →
      stage_artefacts hash resolve cfg github_output_file fs =
        (fs1, w1, .error (.stageError ("Destination escapes staging directory: " ++ dtext)))) := by
  have hsafeE : ∀ d : String,
      pathUnder (resolvePath staging_dir) (resolvePath (joinPath staging_dir d)) = false →
      _safe_destination_path staging_dir d =
        .error (.stageError ("Destination escapes staging directory: " ++ d)) := by
    intro d h
    simp [_safe_destination_path, h]
  have hstageE : ∀ (artefact : ArtefactConfig) (sp : FPath) (fs1 : FS) (dtext : String),
      destinationTextOf context artefact sp = .ok dtext →
      pathUnder (resolvePath staging_dir) (resolvePath (joinPath staging_dir dtext)) = false →
      _stage_single_artefact cfg staging_dir context artefact sp fs1 =
        (fs1, .error (.stageError ("Destination escapes staging directory: " ++ dtext))) := by
    intro artefact sp fs1 dtext hd hesc
    simp [_stage_single_artefact, hd, hsafeE dtext hesc]
  refine ⟨hsafeE, hstageE, ?_, ?_⟩
  · intro artefact sp fs1 dtext content hd hin hneq hc hwsp hwst
    have hsafeO : _safe_destination_path staging_dir dtext =
        .ok (resolvePath (joinPath staging_dir dtext)) := by
      simp [_safe_destination_path, hin]
    have hsp : fsGet (if (fsGet fs1 (resolvePath (joinPath staging_dir dtext))).isSome
        then fsRemove fs1 (resolvePath (joinPath staging_dir dtext)) else fs1) sp =
        some content := by
      by_cases hex : (fsGet fs1 (resolvePath (joinPath staging_dir dtext))).isSome
      · rw [if_pos hex, fsGet_fsRemove_ne fs1 _ sp hneq]
        exact hc
      · rw [if_neg hex]
        exact hc
    constructor
    · simp [_stage_single_artefact, hd, hsafeO, hsp, hwsp, hwst]
    · simp only [_stage_single_artefact, hd, hsafeO, hsp, hwsp, hwst]
      simp [fsGet_fsSet_self]
  · intro pre post artefact fs1 w1 s1 sp attempts dtext hart hpre hres hd hesc
    have hstep : stageStep hash resolve cfg staging_dir context fs1 artefact =
        (fs1, [], none,
          some (.stageError ("Destination escapes staging directory: " ++ dtext))) := by
      simp [stageStep, hres, _ensure_source_available, hstageE artefact sp fs1 dtext hd hesc]
    simp only [stage_artefacts, hcx, ← hsd, hart]
    rw [iter_append]
    simp only [hpre]
    rw [_iter_staged_artefacts, hstep]
    simp [stageFinish]

/-- Descriptor whose destination template escapes the staging directory. -/
def artEsc : ArtefactConfig :=
  { source := "a.txt", destination := some "../../etc/pwned" }

/-- Configuration staging the escaping descriptor. -/
def cfgEscape : StagingConfig :=
  { workspace := ["w"], bin_name := "app", dist_dir := "dist",
    checksum_algorithm := "sha256", artefacts := [artEsc],
    platform := "linux", arch := "amd64", target := "t" }

/-- The rendered template context of `cfgEscape`. -/
def ctxEsc : Ctx :=
  [("workspace", "/w"), ("bin_name", "app"), ("dist_dir", "dist"),
   ("checksum_algorithm", "sha256"), ("platform", "linux"), ("arch", "amd64"),
   ("target", "t"), ("bin_ext", ""), ("target_key", ""),
   ("staging_dir_template", "{bin_name}_{platform}_{arch}"),
   ("staging_dir_name", "app_linux_amd64")]

/-- Concrete check of C6: a `"../../etc/pwned"` destination is rejected
and the run aborts with the filesystem exactly as before the artefact. -/
theorem C6_destination_containment_witness :
    as_template_context cfgEscape = .ok ctxEsc ∧
    stage_artefacts testHash litResolve cfgEscape ["gh", "out.txt"] fsTwoSources =
      (fsTwoSources, [],
        .error (.stageError "Destination escapes staging directory: ../../etc/pwned")) :=
  ⟨by decide,
    (C6_destination_containment testHash litResolve cfgEscape ["gh", "out.txt"]
        fsTwoSources ctxEsc (stagingDirFromCtx cfgEscape ctxEsc) (by decide) rfl).2.2.2
      [] [] artEsc fsTwoSources [] [] ["w", "a.txt"]
      [⟨"a.txt", "a.txt"⟩] "../../etc/pwned"
      rfl (by decide) (by decide) (by decide) (by decide)⟩

/-! ## Path-prefix and output-file preservation lemmas -/

theorem pathUnder_iff_exists_rest (pre : FPath) :
    ∀ p : FPath, pathUnder pre p = true ↔ pre <+: p := by
  induction pre with
  | nil =>
    intro p
    simp [pathUnder]
  | cons a as ih =>
    intro p
    cases p with
    | nil =>
      simp [pathUnder]
    | cons b bs =>
      rw [pathUnder, List.cons_prefix_cons, Bool.and_eq_true, beq_iff_eq, ih bs]

theorem ne_of_pathUnder {root p q : FPath} (hp : pathUnder root p = true)
    (hq : pathUnder root q = false) : p ≠ q := by
  intro h
  rw [h, hq] at hp
  exact Bool.false_ne_true hp

theorem fsGet_clearSubtree_ne (root : FPath) (p : FPath)
    (h : pathUnder root p = false) (fs : FS) :
    fsGet (clearSubtree root fs) p = fsGet fs p := by
  induction fs with
  | nil => rfl
  | cons e rest ih =>
    rw [clearSubtree, List.filter_cons]
    by_cases hu : pathUnder root e.1
    · simp only [hu, Bool.not_true, Bool.false_eq_true, if_false]
      rw [fsGet_cons, if_neg ?_]
      · exact ih
      · simp only [beq_iff_eq]
        exact fun hk => ne_of_pathUnder hu h hk
    · have hu2 : pathUnder root e.1 = false := by simpa using hu
      simp only [hu2, Bool.not_false, if_true]
      rw [fsGet_cons, fsGet_cons]
      by_cases h2 : e.1 == p
      · rw [if_pos h2, if_pos h2]
      · rw [if_neg h2, if_neg h2]
        exact ih

theorem sidecar_ne_of_hygiene {root out t : FPath} (n : String)
    (hnosub : pathUnder root out = false)
    (hside : ∀ m : String, out ≠ root.dropLast ++ [m])
    (ht : pathUnder root t = true) : t.dropLast ++ [n] ≠ out := by
  obtain ⟨rest, hres⟩ := (pathUnder_iff_exists_rest root t).mp ht
  cases rest with
  | nil =>
    rw [← hres, List.append_nil]
    exact fun h => hside n h.symm
  | cons x xs =>
    have hdrop : t.dropLast = root ++ (x :: xs).dropLast := by
      rw [← hres]
      exact List.dropLast_append_of_ne_nil root (by simp)
    have hpref : pathUnder root (t.dropLast ++ [n]) = true := by
      rw [hdrop, List.append_assoc]
      exact (pathUnder_iff_exists_rest root _).mpr ⟨_, rfl⟩
    exact ne_of_pathUnder hpref hnosub

theorem safe_ok_inv (staging_dir : FPath) (d : String) (t : FPath)
    (h : _safe_destination_path staging_dir d = .ok t) :
    pathUnder (resolvePath staging_dir) t = true := by
  by_cases hc : pathUnder (resolvePath staging_dir)
      (resolvePath (joinPath staging_dir d)) = true
  · have : _safe_destination_path staging_dir d =
        .ok (resolvePath (joinPath staging_dir d)) := by
      simp [_safe_destination_path, hc]
    rw [this] at h
    cases h
    exact hc
  · have hc2 : pathUnder (resolvePath staging_dir)
        (resolvePath (joinPath staging_dir d)) = false := by simpa using hc
    have : _safe_destination_path staging_dir d =
        .error (.stageError ("Destination escapes staging directory: " ++ d)) := by
      simp [_safe_destination_path, hc2]
    rw [this] at h
    cases h

theorem single_spec (cfg : StagingConfig) (staging_dir : FPath) (context : Ctx)
    (artefact : ArtefactConfig) (sp : FPath) (fs1 : FS) :
    (∃ e, _stage_single_artefact cfg staging_dir context artefact sp fs1 =
      (fs1, .error e)) ∨
    (∃ target content r,
      pathUnder (resolvePath staging_dir) target = true ∧
      _stage_single_artefact cfg staging_dir context artefact sp fs1 =
        (fsSet (if (fsGet fs1 target).isSome then fsRemove fs1 target else fs1)
          target content, r) ∧
      (r = .ok target ∨ ∃ m, r = .error (.valueError m))) ∨
    (∃ target, pathUnder (resolvePath staging_dir) target = true ∧
      _stage_single_artefact cfg staging_dir context artefact sp fs1 =
        (if (fsGet fs1 target).isSome then fsRemove fs1 target else fs1,
          .error (.osError "shutil.copy2: source file missing"))) := by
  cases hd : destinationTextOf context artefact sp with
  | error e =>
    exact Or.inl ⟨e, by simp only [_stage_single_artefact, hd]⟩
  | ok dtext =>
    cases hs : _safe_destination_path staging_dir dtext with
    | error e =>
      exact Or.inl ⟨e, by simp only [_stage_single_artefact, hd, hs]⟩
    | ok target =>
      have htarget := safe_ok_inv staging_dir dtext target hs
      cases hg : fsGet (if (fsGet fs1 target).isSome then fsRemove fs1 target else fs1)
          sp with
      | none =>
        refine Or.inr (Or.inr ⟨target, htarget, ?_⟩)
        simp only [_stage_single_artefact, hd, hs, hg]
      | some content =>
        by_cases hw : (pathUnder cfg.workspace sp &&
            pathUnder cfg.workspace target) = true
        · refine Or.inr (Or.inl ⟨target, content, .ok target, htarget, ?_, Or.inl rfl⟩)
          simp only [_stage_single_artefact, hd, hs, hg, if_pos hw]
        · refine Or.inr (Or.inl ⟨target, content,
            .error (.valueError "path is not in the subpath of the workspace"),
            htarget, ?_, Or.inr ⟨_, rfl⟩⟩)
          simp only [_stage_single_artefact, hd, hs, hg, if_neg hw]

theorem single_ok_safe (cfg : StagingConfig) (staging_dir : FPath) (context : Ctx)
    (artefact : ArtefactConfig) (sp : FPath) (fs1 fsF : FS) (t : FPath)
    (h : _stage_single_artefact cfg staging_dir context artefact sp fs1 = (fsF, .ok t)) :
    pathUnder (resolvePath staging_dir) t = true := by
  rcases single_spec cfg staging_dir context artefact sp fs1 with
    ⟨e, heq⟩ | ⟨target, content, r, htarget, heq, hr⟩ | ⟨target, htarget, heq⟩
  · rw [heq] at h
    simp at h
  · rw [heq] at h
    rcases hr with hr | ⟨m, hr⟩
    · rw [hr] at h
      have h2 := congrArg (fun x => x.2) h
      simp only at h2
      cases h2
      exact htarget
    · rw [hr] at h
      have h2 := congrArg (fun x => x.2) h
      simp at h2
  · rw [heq] at h
    have h2 := congrArg (fun x => x.2) h
    simp at h2

theorem single_out_preserved (cfg : StagingConfig) (staging_dir : FPath)
    (context : Ctx) (out : FPath)
    (hnosub : pathUnder (resolvePath staging_dir) out = false)
    (artefact : ArtefactConfig) (sp : FPath) (fs1 : FS) :
    fsGet ((_stage_single_artefact cfg staging_dir context artefact sp fs1).1) out =
      fsGet fs1 out := by
  rcases single_spec cfg staging_dir context artefact sp fs1 with
    ⟨e, heq⟩ | ⟨target, content, r, htarget, heq, hr⟩ | ⟨target, htarget, heq⟩
  · rw [heq]
  · rw [heq]
    have hne : out ≠ target := fun h => ne_of_pathUnder htarget hnosub h.symm
    show fsGet (fsSet _ target _) out = fsGet fs1 out
    rw [fsGet_fsSet_ne _ _ _ _ hne]
    by_cases hex : (fsGet fs1 target).isSome
    · rw [if_pos hex, fsGet_fsRemove_ne fs1 target out hne]
    · rw [if_neg hex]
  · rw [heq]
    have hne : out ≠ target := fun h => ne_of_pathUnder htarget hnosub h.symm
    show fsGet (if (fsGet fs1 target).isSome then fsRemove fs1 target else fs1) out =
      fsGet fs1 out
    by_cases hex : (fsGet fs1 target).isSome
    · rw [if_pos hex, fsGet_fsRemove_ne fs1 target out hne]
    · rw [if_neg hex]

theorem checksum_out_preserved (hash : String → String → String)
    (staging_dir out : FPath) (path : FPath) (alg : String)
    (hnosub : pathUnder (resolvePath staging_dir) out = false)
    (hside : ∀ m : String, out ≠ (resolvePath staging_dir).dropLast ++ [m])
    (hpath : pathUnder (resolvePath staging_dir) path = true) (fs1 : FS) :
    fsGet ((_write_checksum hash path alg fs1).1) out = fsGet fs1 out := by
  cases hg : fsGet fs1 path with
  | none => simp only [_write_checksum, hg]
  | some content =>
    simp only [_write_checksum, hg]
    rw [fsGet_fsSet_ne]
    obtain ⟨rest, hres⟩ := (pathUnder_iff_exists_rest (resolvePath staging_dir) path).mp hpath
    cases rest with
    | nil =>
      rw [List.append_nil] at hres
      intro h
      apply hside (nameOf path ++ "." ++ alg)
      rw [h, ← hres]
    | cons x xs =>
      have hdrop : path.dropLast = resolvePath staging_dir ++ (x :: xs).dropLast := by
        rw [← hres]
        exact List.dropLast_append_of_ne_nil _ (by simp)
      have hpref : pathUnder (resolvePath staging_dir)
          (path.dropLast ++ [nameOf path ++ "." ++ alg]) = true := by
        rw [hdrop, List.append_assoc]
        exact (pathUnder_iff_exists_rest _ _).mpr ⟨_, rfl⟩
      intro h
      exact ne_of_pathUnder hpref hnosub h.symm

theorem step_out_preserved (hash : String → String → String) (resolve : Resolver)
    (cfg : StagingConfig) (staging_dir : FPath) (context : Ctx) (out : FPath)
    (hnosub : pathUnder (resolvePath staging_dir) out = false)
    (hside : ∀ m : String, out ≠ (resolvePath staging_dir).dropLast ++ [m])
    (fs : FS) (artefact : ArtefactConfig) :
    fsGet (stageStep hash resolve cfg staging_dir context fs artefact).1 out =
      fsGet fs out := by
  cases hr : _resolve_artefact_source resolve fs cfg.workspace artefact context with
  | error e => simp only [stageStep, hr]
  | ok pr =>
    obtain ⟨srcOpt, attempts⟩ := pr
    cases he : _ensure_source_available srcOpt artefact attempts cfg.workspace with
    | error e => simp only [stageStep, hr, he]
    | ok pa =>
      obtain ⟨avail, warns⟩ := pa
      cases avail with
      | false => simp [stageStep, hr, he]
      | true =>
        cases srcOpt with
        | none => simp [stageStep, hr, he]
        | some sp =>
          have hp := single_out_preserved cfg staging_dir context out hnosub artefact sp fs
          cases hss : _stage_single_artefact cfg staging_dir context artefact sp fs with
          | mk fs1 res =>
            rw [hss] at hp
            simp only at hp
            cases res with
            | error e => simp [stageStep, hr, he, hss, hp]
            | ok dp =>
              have hdp := single_ok_safe cfg staging_dir context artefact sp fs fs1 dp hss
              have hcp := checksum_out_preserved hash staging_dir out dp
                cfg.checksum_algorithm hnosub hside hdp fs1
              cases hwc : _write_checksum hash dp cfg.checksum_algorithm fs1 with
              | mk fs2 cres =>
                rw [hwc] at hcp
                simp only at hcp
                cases cres with
                | error e => simp [stageStep, hr, he, hss, hwc, hcp, hp]
                | ok digest => simp [stageStep, hr, he, hss, hwc, hcp, hp]

theorem iter_out_preserved (hash : String → String → String) (resolve : Resolver)
    (cfg : StagingConfig) (staging_dir : FPath) (context : Ctx) (out : FPath)
    (hnosub : pathUnder (resolvePath staging_dir) out = false)
    (hside : ∀ m : String, out ≠ (resolvePath staging_dir).dropLast ++ [m]) :
    ∀ (arts : List ArtefactConfig) (fs : FS),
      fsGet (_iter_staged_artefacts hash resolve cfg staging_dir context arts fs).fs out =
        fsGet fs out := by
  intro arts
  induction arts with
  | nil => intro fs; rfl
  | cons a rest ih =>
    intro fs
    have hso := step_out_preserved hash resolve cfg staging_dir context out
      hnosub hside fs a
    rw [_iter_staged_artefacts]
    cases hstep : stageStep hash resolve cfg staging_dir context fs a with
    | mk fs1 r3 =>
      obtain ⟨warns, staged?, err?⟩ := r3
      rw [hstep] at hso
      simp only at hso
      cases err? with
      | some e => simpa using hso
      | none =>
        show fsGet (_iter_staged_artefacts hash resolve cfg staging_dir context
          rest fs1).fs out = fsGet fs out
        rw [ih fs1]
        exact hso

theorem stageFinish_error_shape (sd out : FPath) (r : IterResult) (fsF : FS)
    (w : List String) (e : PyError)
    (h : stageFinish sd out r = (fsF, w, .error e)) :
    fsF = r.fs ∧ w = r.warnings := by
  cases herr : r.error with
  | some e2 =>
    simp only [stageFinish, herr] at h
    exact ⟨(congrArg (fun x => x.1) h).symm, (congrArg (fun x => x.2.1) h).symm⟩
  | none =>
    simp only [stageFinish, herr] at h
    by_cases hemp : (accumulateStaged r.staged).1 = []
    · rw [if_pos hemp] at h
      exact ⟨(congrArg (fun x => x.1) h).symm, (congrArg (fun x => x.2.1) h).symm⟩
    · rw [if_neg hemp] at h
      cases hv : _validate_no_reserved_key_collisions (accumulateStaged r.staged).2.1 with
      | error e3 =>
        simp only [hv] at h
        exact ⟨(congrArg (fun x => x.1) h).symm, (congrArg (fun x => x.2.1) h).symm⟩
      | ok u =>
        simp only [hv] at h
        have h2 := congrArg (fun x => x.2.2) h
        simp at h2

theorem stage_error_out (hash : String → String → String) (resolve : Resolver)
    (cfg : StagingConfig) (out : FPath) (fs : FS) (context : Ctx)
    (hcx : as_template_context cfg = .ok context)
    (hnosub : pathUnder (resolvePath (stagingDirFromCtx cfg context)) out = false)
    (hside : ∀ m : String,
      out ≠ (resolvePath (stagingDirFromCtx cfg context)).dropLast ++ [m])
    (fsF : FS) (w : List String) (e : PyError)
    (h : stage_artefacts hash resolve cfg out fs = (fsF, w, .error e)) :
    fsGet fsF out = fsGet fs out := by
  simp only [stage_artefacts, hcx] at h
  obtain ⟨hfs, hw⟩ := stageFinish_error_shape _ _ _ _ _ _ h
  rw [hfs, iter_out_preserved hash resolve cfg _ context out hnosub hside,
    _initialize_staging_dir, fsGet_clearSubtree_ne _ _ hnosub fs]

/-! ## C3: missing-artefact handling -/

theorem mem_pyJoin_infix (sep : String) :
    ∀ (l : List String) (x : String), x ∈ l → x.data <:+: (pyJoin sep l).data := by
  intro l
  induction l with
  | nil => intro x hx; simp at hx
  | cons a rest ih =>
    intro x hx
    cases rest with
    | nil =>
      simp at hx
      rw [hx]
      exact List.infix_rfl
    | cons b brest =>
      rcases List.mem_cons.mp hx with h1 | h1
      · rw [h1]
        show a.data <:+: (a ++ sep ++ pyJoin sep (b :: brest)).data
        rw [String.data_append, String.data_append]
        exact ⟨[], sep.data ++ (pyJoin sep (b :: brest)).data, by simp⟩
      · have h2 := ih x h1
        show x.data <:+: (a ++ sep ++ pyJoin sep (b :: brest)).data
        rw [String.data_append, String.data_append]
        obtain ⟨s, t, hst⟩ := h2
        exact ⟨a.data ++ sep.data ++ s, t, by rw [← hst]; simp⟩

theorem infix_append_right {l m : List Char} (t : List Char) (h : l <:+: m) :
    l <:+: m ++ t := by
  obtain ⟨s, u, hsu⟩ := h
  exact ⟨s, u ++ t, by rw [← hsu]; simp⟩

theorem infix_append_left {l m : List Char} (s : List Char) (h : l <:+: m) :
    l <:+: s ++ m := by
  obtain ⟨u, v, huv⟩ := h
  exact ⟨s ++ u, v, by rw [← huv]; simp⟩

theorem iter_cfg_artefacts_irrel (hash : String → String → String)
    (resolve : Resolver) (cfg : StagingConfig) (arts2 : List ArtefactConfig)
    (sd : FPath) (context : Ctx) :
    ∀ (l : List ArtefactConfig) (fs : FS),
      _iter_staged_artefacts hash resolve { cfg with artefacts := arts2 } sd context l fs =
        _iter_staged_artefacts hash resolve cfg sd context l fs := by
  obtain ⟨ws, bn, dd, ca, arts, pf, ar, tg, be, sdt, tk⟩ := cfg
  intro l
  induction l with
  | nil => intro fs; rfl
  | cons a rest ih =>
    intro fs
    have ih2 : ∀ fs' : FS,
        _iter_staged_artefacts hash resolve ⟨ws, bn, dd, ca, arts2, pf, ar, tg, be, sdt, tk⟩
          sd context rest fs' =
        _iter_staged_artefacts hash resolve ⟨ws, bn, dd, ca, arts, pf, ar, tg, be, sdt, tk⟩
          sd context rest fs' := ih
    show _iter_staged_artefacts hash resolve ⟨ws, bn, dd, ca, arts2, pf, ar, tg, be, sdt, tk⟩
        sd context (a :: rest) fs =
      _iter_staged_artefacts hash resolve ⟨ws, bn, dd, ca, arts, pf, ar, tg, be, sdt, tk⟩
        sd context (a :: rest) fs
    rw [_iter_staged_artefacts, _iter_staged_artefacts]
    have hsame : stageStep hash resolve ⟨ws, bn, dd, ca, arts2, pf, ar, tg, be, sdt, tk⟩
        sd context fs a =
      stageStep hash resolve ⟨ws, bn, dd, ca, arts, pf, ar, tg, be, sdt, tk⟩
        sd context fs a := rfl
    rw [hsame]
    cases stageStep hash resolve ⟨ws, bn, dd, ca, arts, pf, ar, tg, be, sdt, tk⟩
        sd context fs a with
    | mk fs1 r3 =>
      obtain ⟨warns, staged?, err?⟩ := r3
      cases err? with
      | some e => rfl
      | none =>
        simp only []
        rw [ih2 fs1]

theorem stageFinish_parts (sd out : FPath) (f : FS) (s : List StagedArtefact)
    (e? : Option PyError) :
    ∃ F R, ∀ w' : List String, stageFinish sd out ⟨f, w', s, e?⟩ = (F, w', R) := by
  cases e? with
  | some e => exact ⟨f, .error e, fun w' => rfl⟩
  | none =>
    by_cases hemp : (accumulateStaged s).1 = []
    · refine ⟨f, .error (.stageError "No artefacts were staged."), fun w' => ?_⟩
      simp [stageFinish, hemp]
    · cases hv : _validate_no_reserved_key_collisions (accumulateStaged s).2.1 with
      | error e =>
        refine ⟨f, .error e, fun w' => ?_⟩
        simp [stageFinish, hemp, hv]
      | ok u =>
        refine ⟨write_github_output out
          (_prepare_output_data sd (accumulateStaged s).1 (accumulateStaged s).2.1
            (accumulateStaged s).2.2) f,
          .ok ⟨sd, (accumulateStaged s).1, (accumulateStaged s).2.1,
            (accumulateStaged s).2.2⟩, fun w' => ?_⟩
        simp [stageFinish, hemp, hv]

/-- C3: a descriptor none of whose patterns resolves aborts the run with a
`StageError` whose message carries the workspace path and every attempted
(template, rendered) pair when the descriptor is required — no result is
produced and the output channel is untouched — while an optional descriptor
only adds the skip warning: the run's filesystem, result, and remaining
warnings are exactly those of the same configuration without that
descriptor, so it contributes no staged entry, output, or checksum and all
other artefacts still stage. -/
theorem C3_missing_artefact (hash : String → String → String) (resolve : Resolver)
    (cfg : StagingConfig) (github_output_file : FPath) (fs : FS) (context : Ctx)
    (staging_dir : FPath)
    (hcx : as_template_context cfg = .ok context)
    (hsd : staging_dir = stagingDirFromCtx cfg context)
    (hnosub : pathUnder (resolvePath staging_dir) github_output_file = false)
    (hside : ∀ m : String,
      github_output_file ≠ (resolvePath staging_dir).dropLast ++ [m])
    (pre post : List ArtefactConfig) (artefact : ArtefactConfig)
    (hart : cfg.artefacts = pre ++ artefact :: post)
    (rend : String → String)
    (hR : ∀ p ∈ artefact.source :: artefact.alternatives,
      _render_template p context = .ok (rend p))
    (hnone : ∀ fs' : FS, ∀ p ∈ artefact.source :: artefact.alternatives,
      resolve fs' cfg.workspace (rend p) = none)
    (fs1 : FS) (w1 : List String) (s1 : List StagedArtefact)
    (hpre : _iter_staged_artefacts hash resolve cfg staging_dir context pre
      (_initialize_staging_dir staging_dir fs) = ⟨fs1, w1, s1, none⟩) :
    (artefact.required = true →
      stage_artefacts hash resolve cfg github_output_file fs =
        (fs1, w1, .error (.stageError ("Required artefact not found. Workspace=" ++
          posixOf cfg.workspace ++ " Attempts=[" ++
          attemptLines ((artefact.source :: artefact.alternatives).map
            (fun p => ⟨p, rend p⟩)) ++ "]"))) ∧
      (posixOf cfg.workspace).data <:+:
        ("Required artefact not found. Workspace=" ++ posixOf cfg.workspace ++
          " Attempts=[" ++ attemptLines ((artefact.source :: artefact.alternatives).map
            (fun p => ⟨p, rend p⟩)) ++ "]").data ∧
      (∀ p ∈ artefact.source :: artefact.alternatives,
        (pyRepr p ++ " -> " ++ pyRepr (rend p)).data <:+:
          ("Required artefact not found. Workspace=" ++ posixOf cfg.workspace ++
            " Attempts=[" ++ attemptLines ((artefact.source :: artefact.alternatives).map
              (fun p => ⟨p, rend p⟩)) ++ "]").data) ∧
      fsGet fs1 github_output_file = fsGet fs github_output_file) ∧
    (artefact.required = false →
      ∃ (F : FS) (wP : List String) (R : Except PyError StageResult),
        stage_artefacts hash resolve cfg github_output_file fs =
          (F, w1 ++ ("::warning title=Artefact Skipped::Optional artefact missing: " ++
            artefact.source) :: wP, R) ∧
        stage_artefacts hash resolve { cfg with artefacts := pre ++ post }
            github_output_file fs = (F, w1 ++ wP, R)) := by
  have hresolve : ∀ fs' : FS,
      _resolve_artefact_source resolve fs' cfg.workspace artefact context =
        .ok (none, (artefact.source :: artefact.alternatives).map
          (fun p => ⟨p, rend p⟩)) := by
    intro fs'
    rw [_resolve_artefact_source,
      resolveSourceLoop_all_fail resolve fs' cfg.workspace context rend _ [] hR
        (hnone fs')]
    simp
  constructor
  · intro hreq
    have hstep : stageStep hash resolve cfg staging_dir context fs1 artefact =
        (fs1, [], none, some (.stageError ("Required artefact not found. Workspace=" ++
          posixOf cfg.workspace ++ " Attempts=[" ++
          attemptLines ((artefact.source :: artefact.alternatives).map
            (fun p => ⟨p, rend p⟩)) ++ "]"))) := by
      simp [stageStep, hresolve fs1, _ensure_source_available, hreq]
    have hrun : stage_artefacts hash resolve cfg github_output_file fs =
        (fs1, w1, .error (.stageError ("Required artefact not found. Workspace=" ++
          posixOf cfg.workspace ++ " Attempts=[" ++
          attemptLines ((artefact.source :: artefact.alternatives).map
            (fun p => ⟨p, rend p⟩)) ++ "]"))) := by
      simp only [stage_artefacts, hcx, ← hsd, hart]
      rw [iter_append]
      simp only [hpre]
      rw [_iter_staged_artefacts, hstep]
      simp [stageFinish]
    refine ⟨hrun, ?_, ?_, ?_⟩
    · rw [String.data_append, String.data_append, String.data_append,
        String.data_append]
      exact infix_append_right _ (infix_append_right _ (infix_append_right _
        (infix_append_left _ List.infix_rfl)))
    · intro p hp
      have h1 : (pyRepr p ++ " -> " ++ pyRepr (rend p)).data <:+:
          (attemptLines ((artefact.source :: artefact.alternatives).map
            (fun q => ⟨q, rend q⟩))).data := by
        apply mem_pyJoin_infix
        rw [List.map_map]
        exact List.mem_map.mpr ⟨p, hp, rfl⟩
      rw [String.data_append, String.data_append, String.data_append,
        String.data_append]
      exact infix_append_right _ (infix_append_left _ h1)
    · exact stage_error_out hash resolve cfg github_output_file fs context hcx
        (hsd ▸ hnosub) (hsd ▸ hside) fs1 w1 _ hrun
  · intro hreq
    have hstep : stageStep hash resolve cfg staging_dir context fs1 artefact =
        (fs1, ["::warning title=Artefact Skipped::Optional artefact missing: " ++
          artefact.source], none, none) := by
      simp [stageStep, hresolve fs1, _ensure_source_available, hreq]
    obtain ⟨F, R, hFR⟩ := stageFinish_parts staging_dir github_output_file
      (_iter_staged_artefacts hash resolve cfg staging_dir context post fs1).fs
      (s1 ++ (_iter_staged_artefacts hash resolve cfg staging_dir context post fs1).staged)
      (_iter_staged_artefacts hash resolve cfg staging_dir context post fs1).error
    refine ⟨F, (_iter_staged_artefacts hash resolve cfg staging_dir context post
      fs1).warnings, R, ?_, ?_⟩
    · simp only [stage_artefacts, hcx, ← hsd, hart]
      rw [iter_append]
      simp only [hpre]
      rw [_iter_staged_artefacts, hstep]
      simp only []
      exact hFR _
    · have hcx2 : as_template_context { cfg with artefacts := pre ++ post } =
          .ok context := hcx
      have hsd2 : stagingDirFromCtx { cfg with artefacts := pre ++ post } context =
          staging_dir := hsd.symm
      simp only [stage_artefacts, hcx2, hsd2]
      rw [iter_cfg_artefacts_irrel, iter_append]
      simp only [hpre]
      exact hFR _

/-- Resolver that never finds a file. -/
def noResolve : Resolver := fun _ _ _ => none

/-- A required descriptor whose patterns never resolve. -/
def artMissing : ArtefactConfig :=
  { source := "nope.bin", alternatives := ["alt.bin"] }

/-- Configuration staging only the missing required descriptor. -/
def cfgMissing : StagingConfig :=
  { workspace := ["w"], bin_name := "app", dist_dir := "dist",
    checksum_algorithm := "sha256", artefacts := [artMissing],
    platform := "linux", arch := "amd64", target := "t" }

/-- Concrete check of C3: the missing required artefact aborts the run with
the attempt trace and leaves the filesystem (and output channel) as it
was. -/
theorem C3_missing_artefact_witness :
    artMissing.required = true ∧
    stage_artefacts testHash noResolve cfgMissing ["gh", "out.txt"] fsTwoSources =
      (fsTwoSources, [], .error (.stageError
        ("Required artefact not found. Workspace=/w " ++
          "Attempts=['nope.bin' -> 'nope.bin', 'alt.bin' -> 'alt.bin']"))) :=
  ⟨rfl,
    ((C3_missing_artefact testHash noResolve cfgMissing ["gh", "out.txt"]
        fsTwoSources ctxEsc (stagingDirFromCtx cfgMissing ctxEsc)
        (by decide) rfl (by decide)
        (fun m h => by
          rw [show List.dropLast (resolvePath (stagingDirFromCtx cfgMissing ctxEsc)) =
            ["w", "dist"] from by decide] at h
          injection h with h1 h2
          exact absurd h1 (by decide))
        [] [] artMissing rfl (fun p => p) (by decide)
        (fun fs' p hp => rfl)
        fsTwoSources [] [] (by decide)).1 rfl).1⟩

/-! ## C2: reserved output keys -/

/-- Configuration in which the descriptor declaring the reserved output key
`artifact_dir` is optional and its source is missing. -/
def cfgReservedSkip : StagingConfig :=
  { workspace := ["w"], bin_name := "app", dist_dir := "dist",
    checksum_algorithm := "sha256",
    artefacts := [
      { source := "a.txt" },
      { source := "missing.bin", required := false, output := some "artifact_dir" }],
    platform := "linux", arch := "amd64", target := "t" }

/-- C2 as stated is false: a descriptor with the reserved output key
`artifact_dir` does not make the run fail when that descriptor is optional
and skipped — only the output keys of artefacts actually staged are
validated, so the run succeeds. -/
theorem C2_reserved_key_counterexample :
    (∃ a ∈ cfgReservedSkip.artefacts,
      a.output = some "artifact_dir" ∧ "artifact_dir" ∈ RESERVED_OUTPUT_KEYS) ∧
    (stage_artefacts testHash litResolve cfgReservedSkip ["gh", "out.txt"]
        fsTwoSources).2.2 =
      .ok ⟨["w", "dist", "app_linux_amd64"],
        [["w", "dist", "app_linux_amd64", "a.txt"]], [],
        [("a.txt", "sha256:AAA")]⟩ :=
  ⟨by decide, by decide⟩

theorem keys_dictSet {α : Type} (d : List (String × α)) (k : String) (v : α) :
    (dictSet d k v).map Prod.fst =
      if d.any (fun e => e.1 == k) then d.map Prod.fst
      else d.map Prod.fst ++ [k] := by
  rw [dictSet]
  by_cases hany : d.any (fun e => e.1 == k)
  · rw [if_pos hany, if_pos hany, List.map_map]
    apply List.map_congr_left
    intro e _
    by_cases h : e.1 == k
    · have h2 : e.1 = k := by simpa using h
      simp [h, h2]
    · have h2 : ¬ e.1 = k := by simpa using h
      simp [h, h2]
  · rw [if_neg hany, if_neg hany, List.map_append]
    rfl

theorem mem_keys_of_accumulate (k : String) (hk : k ≠ "") :
    ∀ (staged : List StagedArtefact)
      (acc : List FPath × List (String × FPath) × List (String × String)),
      (k ∈ acc.2.1.map Prod.fst ∨
        ∃ s ∈ staged, s.artefact.output = some k) →
      k ∈ (staged.foldl
        (fun acc s =>
          let paths := acc.1 ++ [s.path]
          let checks := dictSet acc.2.2 (nameOf s.path) s.checksum
          let outs :=
            match s.artefact.output with
            | some k2 => if k2 = "" then acc.2.1 else dictSet acc.2.1 k2 s.path
            | none => acc.2.1
          (paths, outs, checks)) acc).2.1.map Prod.fst := by
  intro staged
  induction staged with
  | nil =>
    intro acc h
    rcases h with h | ⟨s, hs, _⟩
    · exact h
    · simp at hs
  | cons s rest ih =>
    intro acc h
    rw [List.foldl_cons]
    apply ih
    rcases h with h | ⟨s2, hs2, hout⟩
    · left
      cases ho : s.artefact.output with
      | none => simpa [ho] using h
      | some k2 =>
        by_cases hk2 : k2 = ""
        · simpa [ho, hk2] using h
        · simp only [ho, if_neg hk2]
          rw [keys_dictSet]
          by_cases hany : acc.2.1.any (fun e => e.1 == k2)
          · rw [if_pos hany]
            exact h
          · rw [if_neg hany]
            exact List.mem_append.mpr (Or.inl h)
    · rcases List.mem_cons.mp hs2 with h1 | h1
      · left
        rw [h1] at hout
        simp only [hout, if_neg hk]
        rw [keys_dictSet]
        by_cases hany : acc.2.1.any (fun e => e.1 == k)
        · rw [if_pos hany]
          rcases List.any_eq_true.mp hany with ⟨e, he, hek⟩
          exact List.mem_map.mpr ⟨e, he, by simpa using hek⟩
        · rw [if_neg hany]
          exact List.mem_append.mpr (Or.inr (by simp))
      · exact Or.inr ⟨s2, h1, hout⟩

theorem validate_error_of_mem (outputs : List (String × FPath)) (k : String)
    (hk : k ∈ outputs.map Prod.fst) (hr : RESERVED_OUTPUT_KEYS.contains k) :
    pySortStrings ((outputs.map (fun e => e.1)).filter
        (fun k2 => RESERVED_OUTPUT_KEYS.contains k2)) ≠ [] ∧
    k ∈ pySortStrings ((outputs.map (fun e => e.1)).filter
        (fun k2 => RESERVED_OUTPUT_KEYS.contains k2)) ∧
    _validate_no_reserved_key_collisions outputs =
      .error (.stageError ("Artefact outputs collide with reserved keys: " ++
        pyStrList (pySortStrings ((outputs.map (fun e => e.1)).filter
          (fun k2 => RESERVED_OUTPUT_KEYS.contains k2))))) := by
  have hkf : k ∈ (outputs.map (fun e => e.1)).filter
      (fun k2 => RESERVED_OUTPUT_KEYS.contains k2) :=
    List.mem_filter.mpr ⟨hk, hr⟩
  have hkc : k ∈ pySortStrings ((outputs.map (fun e => e.1)).filter
      (fun k2 => RESERVED_OUTPUT_KEYS.contains k2)) :=
    ((List.perm_insertionSort _ _).mem_iff).mpr hkf
  have hne : pySortStrings ((outputs.map (fun e => e.1)).filter
      (fun k2 => RESERVED_OUTPUT_KEYS.contains k2)) ≠ [] := by
    intro h
    rw [h] at hkc
    exact absurd hkc (List.not_mem_nil k)
  refine ⟨hne, hkc, ?_⟩
  simp only [_validate_no_reserved_key_collisions, if_neg hne]

theorem accumulateStaged_paths :
    ∀ (staged : List StagedArtefact)
      (acc : List FPath × List (String × FPath) × List (String × String)),
      (staged.foldl
        (fun acc s =>
          let paths := acc.1 ++ [s.path]
          let checks := dictSet acc.2.2 (nameOf s.path) s.checksum
          let outs :=
            match s.artefact.output with
            | some k => if k = "" then acc.2.1 else dictSet acc.2.1 k s.path
            | none => acc.2.1
          (paths, outs, checks)) acc).1 =
        acc.1 ++ staged.map StagedArtefact.path := by
  intro staged
  induction staged with
  | nil => intro acc; simp
  | cons s rest ih =>
    intro acc
    rw [List.foldl_cons, ih]
    simp

/-- Descriptor whose output key is the reserved `artifact_dir` and whose
source resolves, so it is actually staged. -/
def artReserved : ArtefactConfig :=
  { source := "a.txt", output := some "artifact_dir" }

/-- Configuration staging the reserved-output-key descriptor. -/
def cfgReservedHit : StagingConfig :=
  { workspace := ["w"], bin_name := "app", dist_dir := "dist",
    checksum_algorithm := "sha256", artefacts := [artReserved],
    platform := "linux", arch := "amd64", target := "t" }

/-- C2 amended: the reserved-key validation runs over the output keys of
the artefacts actually staged (not over every declared descriptor — see
the counterexample): whenever the staging loop completes without error and
some staged artefact declared a reserved output key, `stage_artefacts`
fails with the `StageError` listing the sorted offending keys; and in
every failing run (any `StageError`, under the hygiene assumptions that
the output channel file is not inside the staging directory and is not a
sibling checksum-sidecar path) the output channel file's bytes are exactly
as before the run. -/
theorem C2_reserved_key_validation (hash : String → String → String)
    (resolve : Resolver) (cfg : StagingConfig) (out : FPath) (fs : FS)
    (context : Ctx) (k : String)
    (hcx : as_template_context cfg = .ok context)
    (hnosub : pathUnder (resolvePath (stagingDirFromCtx cfg context)) out = false)
    (hside : ∀ m : String,
      out ≠ (resolvePath (stagingDirFromCtx cfg context)).dropLast ++ [m])
    (herr : (_iter_staged_artefacts hash resolve cfg (stagingDirFromCtx cfg context)
        context cfg.artefacts
        (_initialize_staging_dir (stagingDirFromCtx cfg context) fs)).error = none)
    (hstaged : ∃ s ∈ (_iter_staged_artefacts hash resolve cfg
        (stagingDirFromCtx cfg context) context cfg.artefacts
        (_initialize_staging_dir (stagingDirFromCtx cfg context) fs)).staged,
      s.artefact.output = some k)
    (hk : k ≠ "") (hr : RESERVED_OUTPUT_KEYS.contains k) :
    (∃ collisions : List String, collisions ≠ [] ∧ k ∈ collisions ∧
      collisions.Sorted (fun a b => a.data ≤ b.data) ∧
      (stage_artefacts hash resolve cfg out fs).2.2 =
        .error (.stageError
          ("Artefact outputs collide with reserved keys: " ++
            pyStrList collisions))) ∧
    (∀ (fs2 fsF : FS) (w : List String) (e : PyError),
      stage_artefacts hash resolve cfg out fs2 = (fsF, w, .error e) →
      fsGet fsF out = fsGet fs2 out) := by
  constructor
  · obtain ⟨s, hs, hout⟩ := hstaged
    have hkmem : k ∈ (accumulateStaged
        (_iter_staged_artefacts hash resolve cfg (stagingDirFromCtx cfg context)
          context cfg.artefacts
          (_initialize_staging_dir (stagingDirFromCtx cfg context) fs)).staged).2.1.map
        Prod.fst :=
      mem_keys_of_accumulate k hk _ ([], [], []) (Or.inr ⟨s, hs, hout⟩)
    obtain ⟨hne, hkc, hv⟩ := validate_error_of_mem _ k hkmem hr
    have hlen : (accumulateStaged
        (_iter_staged_artefacts hash resolve cfg (stagingDirFromCtx cfg context)
          context cfg.artefacts
          (_initialize_staging_dir (stagingDirFromCtx cfg context) fs)).staged).1 =
        (_iter_staged_artefacts hash resolve cfg (stagingDirFromCtx cfg context)
          context cfg.artefacts
          (_initialize_staging_dir (stagingDirFromCtx cfg context) fs)).staged.map
          StagedArtefact.path := by
      have h0 := accumulateStaged_paths
        (_iter_staged_artefacts hash resolve cfg (stagingDirFromCtx cfg context)
          context cfg.artefacts
          (_initialize_staging_dir (stagingDirFromCtx cfg context) fs)).staged
        ([], [], [])
      simpa using h0
    have hnonempty : ¬(accumulateStaged
        (_iter_staged_artefacts hash resolve cfg (stagingDirFromCtx cfg context)
          context cfg.artefacts
          (_initialize_staging_dir (stagingDirFromCtx cfg context) fs)).staged).1 = [] := by
      rw [hlen]
      intro hcontra
      exact List.ne_nil_of_mem hs (List.map_eq_nil_iff.mp hcontra)
    refine ⟨_, hne, hkc, ?_, ?_⟩
    · haveI : IsTotal String (fun a b => a.data ≤ b.data) :=
        ⟨fun a b => le_total _ _⟩
      haveI : IsTrans String (fun a b => a.data ≤ b.data) :=
        ⟨fun a b c hab hbc => le_trans hab hbc⟩
      exact List.sorted_insertionSort _ _
    · simp only [stage_artefacts, hcx]
      simp only [stageFinish, herr, if_neg hnonempty, hv]
  · intro fs2 fsF w e hrun
    exact stage_error_out hash resolve cfg out fs2 context hcx hnosub hside fsF w e hrun

/-- Concrete check of C2 amended: the staged reserved key `artifact_dir`
makes the run fail with the collision message, and the output channel file
is untouched. -/
theorem C2_reserved_key_validation_witness :
    (∃ collisions : List String, collisions ≠ [] ∧ "artifact_dir" ∈ collisions ∧
      collisions.Sorted (fun a b => a.data ≤ b.data) ∧
      (stage_artefacts testHash litResolve cfgReservedHit ["gh", "out.txt"]
          fsTwoSources).2.2 =
        .error (.stageError
          ("Artefact outputs collide with reserved keys: " ++
            pyStrList collisions))) ∧
    fsGet (stage_artefacts testHash litResolve cfgReservedHit ["gh", "out.txt"]
        fsTwoSources).1 ["gh", "out.txt"] =
      fsGet fsTwoSources ["gh", "out.txt"] := by
  have hmain := C2_reserved_key_validation testHash litResolve cfgReservedHit
    ["gh", "out.txt"] fsTwoSources ctxEsc "artifact_dir"
    (by decide) (by decide)
    (fun m h => by
      rw [show List.dropLast (resolvePath (stagingDirFromCtx cfgReservedHit ctxEsc)) =
        ["w", "dist"] from by decide] at h
      injection h with h1 h2
      exact absurd h1 (by decide))
    (by decide) (by decide) (by decide) (by decide)
  refine ⟨hmain.1, ?_⟩
  obtain ⟨collisions, hne, hkc, hsorted, herr2⟩ := hmain.1
  exact hmain.2 fsTwoSources
    (stage_artefacts testHash litResolve cfgReservedHit ["gh", "out.txt"]
      fsTwoSources).1
    (stage_artefacts testHash litResolve cfgReservedHit ["gh", "out.txt"]
      fsTwoSources).2.1
    (.stageError
      ("Artefact outputs collide with reserved keys: " ++ pyStrList collisions))
    (by rw [← herr2])

/-! ## C10: checksum keying by base name -/

theorem stageFinish_ok (sd out : FPath) (r : IterResult)
    (herr : r.error = none)
    (hne : ¬(accumulateStaged r.staged).1 = [])
    (hv : _validate_no_reserved_key_collisions (accumulateStaged r.staged).2.1 = .ok ()) :
    stageFinish sd out r =
      (write_github_output out
        (_prepare_output_data sd (accumulateStaged r.staged).1
          (accumulateStaged r.staged).2.1 (accumulateStaged r.staged).2.2) r.fs,
       r.warnings,
       .ok ⟨sd, (accumulateStaged r.staged).1, (accumulateStaged r.staged).2.1,
         (accumulateStaged r.staged).2.2⟩) := by
  simp only [stageFinish, herr, if_neg hne, hv]

theorem accumulate_checks :
    ∀ (staged : List StagedArtefact)
      (acc : List FPath × List (String × FPath) × List (String × String)),
      (staged.foldl
        (fun acc s =>
          let paths := acc.1 ++ [s.path]
          let checks := dictSet acc.2.2 (nameOf s.path) s.checksum
          let outs :=
            match s.artefact.output with
            | some k => if k = "" then acc.2.1 else dictSet acc.2.1 k s.path
            | none => acc.2.1
          (paths, outs, checks)) acc).2.2 =
        staged.foldl (fun c s => dictSet c (nameOf s.path) s.checksum) acc.2.2 := by
  intro staged
  induction staged with
  | nil => intro acc; rfl
  | cons s rest ih =>
    intro acc
    rw [List.foldl_cons, List.foldl_cons, ih]

theorem dictGet_foldl_dictSet_ne2 {α β : Type} (key : β → String) (val : β → α)
    (k : String) :
    ∀ (l : List β) (base : List (String × α)),
      (∀ s ∈ l, key s ≠ k) →
      dictGet (l.foldl (fun acc s => dictSet acc (key s) (val s)) base) k =
        dictGet base k := by
  intro l
  induction l with
  | nil => intro base _; rfl
  | cons s rest ih =>
    intro base hne
    rw [List.foldl_cons,
      ih (dictSet base (key s) (val s)) (fun x hx => hne x (List.mem_cons.mpr (Or.inr hx)))]
    exact dictGet_dictSet_ne base (key s) k (val s)
      (fun hk => hne s (List.mem_cons_self _ _) hk.symm)

theorem nodup_keys_dictSet {α : Type} (d : List (String × α)) (k : String) (v : α)
    (h : (d.map Prod.fst).Nodup) : ((dictSet d k v).map Prod.fst).Nodup := by
  rw [keys_dictSet]
  by_cases hany : d.any (fun e => e.1 == k)
  · rw [if_pos hany]
    exact h
  · rw [if_neg hany]
    have hnk : k ∉ d.map Prod.fst := by
      intro hkm
      rcases List.mem_map.mp hkm with ⟨e, he, hek⟩
      exact hany (List.any_eq_true.mpr ⟨e, he, by simp [hek]⟩)
    simp [List.nodup_append, h, hnk]

theorem nodup_keys_foldl_dictSet {α β : Type} (key : β → String) (val : β → α) :
    ∀ (l : List β) (base : List (String × α)),
      (base.map Prod.fst).Nodup →
      ((l.foldl (fun acc s => dictSet acc (key s) (val s)) base).map Prod.fst).Nodup := by
  intro l
  induction l with
  | nil => intro base h; exact h
  | cons s rest ih =>
    intro base h
    rw [List.foldl_cons]
    exact ih _ (nodup_keys_dictSet base (key s) (val s) h)

theorem mem_keys_of_dictGet {α : Type} :
    ∀ (d : List (String × α)) (k : String) (v : α),
      dictGet d k = some v → k ∈ d.map Prod.fst := by
  intro d
  induction d with
  | nil => intro k v h; exact absurd h (by simp [dictGet])
  | cons e rest ih =>
    intro k v h
    rw [dictGet_cons] at h
    by_cases he : (e.1 == k) = true
    · exact List.mem_map.mpr ⟨e, List.mem_cons_self _ _, by simpa using he⟩
    · rw [if_neg he] at h
      exact List.mem_cons.mpr (Or.inr (ih k v h))

/-- C10: the checksums mapping is keyed by the staged file's base name
only.  In a run whose staging loop succeeds and stages two artefacts with
distinct destination paths but identical base names (the later one
followed only by artefacts with other names), and whose output keys pass
the reserved-key validation, `stage_artefacts` raises no error: it returns
a `StageResult` whose `staged_artefacts` lists every staged path, both
colliding paths included, while `checksums` holds a single entry for the
shared base name — its keys are duplicate-free — carrying the digest of
the later-processed artefact. -/
theorem C10_checksum_base_name_keying (hash : String → String → String)
    (resolve : Resolver) (cfg : StagingConfig) (out : FPath) (fs : FS)
    (context : Ctx) (l1 l2 l3 : List StagedArtefact) (s1 s2 : StagedArtefact)
    (hcx : as_template_context cfg = .ok context)
    (herr : (_iter_staged_artefacts hash resolve cfg (stagingDirFromCtx cfg context)
        context cfg.artefacts
        (_initialize_staging_dir (stagingDirFromCtx cfg context) fs)).error = none)
    (hstg : (_iter_staged_artefacts hash resolve cfg (stagingDirFromCtx cfg context)
        context cfg.artefacts
        (_initialize_staging_dir (stagingDirFromCtx cfg context) fs)).staged =
      l1 ++ s1 :: l2 ++ s2 :: l3)
    (hname : nameOf s1.path = nameOf s2.path)
    (_hpath : s1.path ≠ s2.path)
    (hlater : ∀ s3 ∈ l3, nameOf s3.path ≠ nameOf s2.path)
    (hvalid : _validate_no_reserved_key_collisions
      (accumulateStaged (l1 ++ s1 :: l2 ++ s2 :: l3)).2.1 = .ok ()) :
    ∃ r : StageResult,
      (stage_artefacts hash resolve cfg out fs).2.2 = .ok r ∧
      r.staged_artefacts = (l1 ++ s1 :: l2 ++ s2 :: l3).map StagedArtefact.path ∧
      s1.path ∈ r.staged_artefacts ∧ s2.path ∈ r.staged_artefacts ∧
      dictGet r.checksums (nameOf s2.path) = some s2.checksum ∧
      dictGet r.checksums (nameOf s1.path) = some s2.checksum ∧
      (r.checksums.map Prod.fst).Nodup ∧
      nameOf s2.path ∈ r.checksums.map Prod.fst := by
  have hpaths : (accumulateStaged (l1 ++ s1 :: l2 ++ s2 :: l3)).1 =
      (l1 ++ s1 :: l2 ++ s2 :: l3).map StagedArtefact.path := by
    exact accumulateStaged_paths (l1 ++ s1 :: l2 ++ s2 :: l3) ([], [], [])
  have hne : ¬(accumulateStaged (_iter_staged_artefacts hash resolve cfg
      (stagingDirFromCtx cfg context) context cfg.artefacts
      (_initialize_staging_dir (stagingDirFromCtx cfg context) fs)).staged).1 = [] := by
    rw [hstg, hpaths]
    simp
  have hvalid2 : _validate_no_reserved_key_collisions
      (accumulateStaged (_iter_staged_artefacts hash resolve cfg
        (stagingDirFromCtx cfg context) context cfg.artefacts
        (_initialize_staging_dir (stagingDirFromCtx cfg context) fs)).staged).2.1 =
      .ok () := by
    rw [hstg]
    exact hvalid
  have hchecks : (accumulateStaged (l1 ++ s1 :: l2 ++ s2 :: l3)).2.2 =
      (l1 ++ s1 :: l2 ++ s2 :: l3).foldl
        (fun c s => dictSet c (nameOf s.path) s.checksum) [] := by
    exact accumulate_checks (l1 ++ s1 :: l2 ++ s2 :: l3) ([], [], [])
  have hassoc : l1 ++ s1 :: l2 ++ s2 :: l3 = (l1 ++ s1 :: l2) ++ s2 :: l3 := by
    simp
  have hlast : dictGet ((l1 ++ s1 :: l2 ++ s2 :: l3).foldl
      (fun c s => dictSet c (nameOf s.path) s.checksum) []) (nameOf s2.path) =
      some s2.checksum := by
    rw [hassoc, List.foldl_append, List.foldl_cons,
      dictGet_foldl_dictSet_ne2 (fun s => nameOf s.path) (fun s => s.checksum)
        (nameOf s2.path) l3 _ hlater]
    exact dictGet_dictSet_self _ _ _
  have hnodup : ((((l1 ++ s1 :: l2 ++ s2 :: l3).foldl
      (fun c s => dictSet c (nameOf s.path) s.checksum) [])).map Prod.fst).Nodup :=
    nodup_keys_foldl_dictSet (fun s => nameOf s.path) (fun s => s.checksum)
      (l1 ++ s1 :: l2 ++ s2 :: l3) [] (by simp)
  simp only [stage_artefacts, hcx]
  rw [stageFinish_ok _ _ _ herr hne hvalid2]
  refine ⟨_, rfl, ?_, ?_, ?_, ?_, ?_, ?_, ?_⟩
  · rw [hstg, hpaths]
  · rw [hstg, hpaths]
    exact List.mem_map.mpr ⟨s1, by simp, rfl⟩
  · rw [hstg, hpaths]
    exact List.mem_map.mpr ⟨s2, by simp, rfl⟩
  · rw [hstg, hchecks]
    exact hlast
  · rw [hstg, hchecks, hname]
    exact hlast
  · rw [hstg, hchecks]
    exact hnodup
  · rw [hstg, hchecks]
    exact mem_keys_of_dictGet _ _ _ hlast

/-- Two descriptors staging into different subdirectories under the same
base name. -/
def artNameA : ArtefactConfig :=
  { source := "a.txt", destination := some "d1/f.txt" }

def artNameB : ArtefactConfig :=
  { source := "b.txt", destination := some "d2/f.txt" }

/-- Configuration staging two artefacts whose destinations share a base
name. -/
def cfgSameName : StagingConfig :=
  { workspace := ["w"], bin_name := "app", dist_dir := "dist",
    checksum_algorithm := "sha256", artefacts := [artNameA, artNameB],
    platform := "linux", arch := "amd64", target := "t" }

/-- The artefacts `cfgSameName` stages. -/
def sArtA : StagedArtefact :=
  ⟨["w", "dist", "app_linux_amd64", "d1", "f.txt"], artNameA, "sha256:AAA"⟩

def sArtB : StagedArtefact :=
  ⟨["w", "dist", "app_linux_amd64", "d2", "f.txt"], artNameB, "sha256:BBB"⟩

/-- Concrete check of C10: the two `f.txt` destinations stage without an
error, both paths are listed, and the single checksum entry for `f.txt`
holds the later digest. -/
theorem C10_checksum_base_name_keying_witness :
    ∃ r : StageResult,
      (stage_artefacts testHash litResolve cfgSameName ["gh", "out.txt"]
        fsTwoSources).2.2 = .ok r ∧
      r.staged_artefacts =
        (([] : List StagedArtefact) ++ sArtA :: [] ++ sArtB :: []).map
          StagedArtefact.path ∧
      sArtA.path ∈ r.staged_artefacts ∧ sArtB.path ∈ r.staged_artefacts ∧
      dictGet r.checksums (nameOf sArtB.path) = some sArtB.checksum ∧
      dictGet r.checksums (nameOf sArtA.path) = some sArtB.checksum ∧
      (r.checksums.map Prod.fst).Nodup ∧
      nameOf sArtB.path ∈ r.checksums.map Prod.fst :=
  C10_checksum_base_name_keying testHash litResolve cfgSameName ["gh", "out.txt"]
    fsTwoSources ctxEsc [] [] [] sArtA sArtB (by decide) (by decide) (by decide)
    (by decide) (by decide) (by decide) (by decide)

/-! ## C9: idempotence of a second run -/

theorem fsGet_clearSubtree_under (root p : FPath) (h : pathUnder root p = true) :
    ∀ fs : FS, fsGet (clearSubtree root fs) p = none := by
  intro fs
  induction fs with
  | nil => rfl
  | cons e rest ih =>
    rw [clearSubtree, List.filter_cons]
    by_cases hu : pathUnder root e.1
    · simp only [hu, Bool.not_true, Bool.false_eq_true, if_false]
      exact ih
    · have hu2 : pathUnder root e.1 = false := by simpa using hu
      simp only [hu2, Bool.not_false, if_true]
      rw [fsGet_cons, if_neg ?_]
      · exact ih
      · simp only [beq_iff_eq]
        intro hk
        rw [hk, h] at hu2
        exact absurd hu2 (by simp)

theorem fsGet_fsRemove_self (fs : FS) (p : FPath) :
    fsGet (fsRemove fs p) p = none := by
  induction fs with
  | nil => rfl
  | cons e rest ih =>
    rw [fsRemove, List.filter_cons]
    by_cases he : (e.1 == p) = true
    · simp only [he, Bool.not_true, Bool.false_eq_true, if_false]
      exact ih
    · have he2 : (e.1 == p) = false := by simpa using he
      simp only [he2, Bool.not_false, if_true]
      rw [fsGet_cons, if_neg (by simp [he2] : ¬(e.1 == p) = true)]
      exact ih

theorem agree_fsSet (out q : FPath) (v : String) (fsa fsb : FS)
    (h : ∀ p : FPath, p ≠ out → fsGet fsa p = fsGet fsb p) :
    ∀ p : FPath, p ≠ out → fsGet (fsSet fsa q v) p = fsGet (fsSet fsb q v) p := by
  intro p hp
  by_cases hq : p = q
  · rw [hq, fsGet_fsSet_self, fsGet_fsSet_self]
  · rw [fsGet_fsSet_ne fsa q p v hq, fsGet_fsSet_ne fsb q p v hq, h p hp]

theorem agree_fsRemove (out q : FPath) (fsa fsb : FS)
    (h : ∀ p : FPath, p ≠ out → fsGet fsa p = fsGet fsb p) :
    ∀ p : FPath, p ≠ out → fsGet (fsRemove fsa q) p = fsGet (fsRemove fsb q) p := by
  intro p hp
  by_cases hq : p = q
  · rw [hq, fsGet_fsRemove_self, fsGet_fsRemove_self]
  · rw [fsGet_fsRemove_ne fsa q p hq, fsGet_fsRemove_ne fsb q p hq, h p hp]

theorem resolveSourceLoop_agree (resolve : Resolver) (ws : FPath) (context : Ctx)
    (fsa fsb : FS) (hres : ∀ rend : String, resolve fsa ws rend = resolve fsb ws rend) :
    ∀ (pats : List String) (atts : List RenderAttempt),
      resolveSourceLoop resolve fsa ws context pats atts =
        resolveSourceLoop resolve fsb ws context pats atts := by
  intro pats
  induction pats with
  | nil => intro atts; rfl
  | cons pat rest ih =>
    intro atts
    simp only [resolveSourceLoop]
    cases hrt : _render_template pat context with
    | error e => simp only [hrt]
    | ok rendered =>
      simp only [hrt, hres rendered]
      cases hr : resolve fsb ws rendered with
      | some c => simp only [hr]
      | none =>
        simp only [hr]
        exact ih _

theorem resolveSourceLoop_some_src (resolve : Resolver) (fs : FS) (ws : FPath)
    (context : Ctx) :
    ∀ (pats : List String) (atts : List RenderAttempt) (p : FPath)
      (atts2 : List RenderAttempt),
      resolveSourceLoop resolve fs ws context pats atts = .ok (some p, atts2) →
      ∃ rend : String, resolve fs ws rend = some p := by
  intro pats
  induction pats with
  | nil =>
    intro atts p atts2 h
    simp [resolveSourceLoop] at h
  | cons pat rest ih =>
    intro atts p atts2 h
    simp only [resolveSourceLoop] at h
    cases hrt : _render_template pat context with
    | error e =>
      simp only [hrt] at h
      exact absurd h (by simp)
    | ok rendered =>
      simp only [hrt] at h
      cases hr : resolve fs ws rendered with
      | some c =>
        simp only [hr, Except.ok.injEq, Prod.mk.injEq, Option.some.injEq] at h
        exact ⟨rendered, by rw [hr, h.1]⟩
      | none =>
        simp only [hr] at h
        exact ih _ p atts2 h

theorem single_agree (cfg : StagingConfig) (staging_dir : FPath) (context : Ctx)
    (out : FPath)
    (hnosub : pathUnder (resolvePath staging_dir) out = false)
    (artefact : ArtefactConfig) (sp : FPath) (hsp : sp ≠ out) (fsa fsb : FS)
    (hagree : ∀ p : FPath, p ≠ out → fsGet fsa p = fsGet fsb p) :
    (_stage_single_artefact cfg staging_dir context artefact sp fsa).2 =
      (_stage_single_artefact cfg staging_dir context artefact sp fsb).2 ∧
    ∀ p : FPath, p ≠ out →
      fsGet (_stage_single_artefact cfg staging_dir context artefact sp fsa).1 p =
        fsGet (_stage_single_artefact cfg staging_dir context artefact sp fsb).1 p := by
  cases hd : destinationTextOf context artefact sp with
  | error e =>
    constructor
    · simp only [_stage_single_artefact, hd]
    · intro p hp
      simp only [_stage_single_artefact, hd]
      exact hagree p hp
  | ok dtext =>
    cases hs : _safe_destination_path staging_dir dtext with
    | error e =>
      constructor
      · simp only [_stage_single_artefact, hd, hs]
      · intro p hp
        simp only [_stage_single_artefact, hd, hs]
        exact hagree p hp
    | ok target =>
      have htu := safe_ok_inv staging_dir dtext target hs
      have htne : target ≠ out := ne_of_pathUnder htu hnosub
      have hex : (fsGet fsa target).isSome = (fsGet fsb target).isSome := by
        rw [hagree target htne]
      have hagree1 : ∀ p : FPath, p ≠ out →
          fsGet (if (fsGet fsa target).isSome then fsRemove fsa target else fsa) p =
            fsGet (if (fsGet fsb target).isSome then fsRemove fsb target else fsb) p := by
        rw [hex]
        by_cases hc : (fsGet fsb target).isSome
        · rw [if_pos hc, if_pos hc]
          exact agree_fsRemove out target fsa fsb hagree
        · rw [if_neg hc, if_neg hc]
          exact hagree
      have hsrcget :
          fsGet (if (fsGet fsa target).isSome then fsRemove fsa target else fsa) sp =
            fsGet (if (fsGet fsb target).isSome then fsRemove fsb target else fsb) sp :=
        hagree1 sp hsp
      cases hg : fsGet (if (fsGet fsb target).isSome then fsRemove fsb target else fsb) sp with
      | none =>
        have hga : fsGet (if (fsGet fsa target).isSome then fsRemove fsa target else fsa)
            sp = none := hsrcget.trans hg
        constructor
        · simp only [_stage_single_artefact, hd, hs, hg, hga]
        · intro p hp
          simp only [_stage_single_artefact, hd, hs, hg, hga]
          exact hagree1 p hp
      | some content =>
        have hga : fsGet (if (fsGet fsa target).isSome then fsRemove fsa target else fsa)
            sp = some content := hsrcget.trans hg
        constructor
        · simp only [_stage_single_artefact, hd, hs, hg, hga]
          by_cases hw : (pathUnder cfg.workspace sp && pathUnder cfg.workspace target) = true
          · rw [if_pos hw, if_pos hw]
          · rw [if_neg hw, if_neg hw]
        · intro p hp
          simp only [_stage_single_artefact, hd, hs, hg, hga]
          by_cases hw : (pathUnder cfg.workspace sp && pathUnder cfg.workspace target) = true
          · rw [if_pos hw, if_pos hw]
            exact agree_fsSet out target content _ _ hagree1 p hp
          · rw [if_neg hw, if_neg hw]
            exact agree_fsSet out target content _ _ hagree1 p hp

theorem step_agree (hash : String → String → String) (resolve : Resolver)
    (cfg : StagingConfig) (staging_dir : FPath) (context : Ctx) (out : FPath)
    (hnosub : pathUnder (resolvePath staging_dir) out = false)
    (Hres : ∀ (fsa fsb : FS) (rend : String),
      (∀ p : FPath, p ≠ out → fsGet fsa p = fsGet fsb p) →
      resolve fsa cfg.workspace rend = resolve fsb cfg.workspace rend)
    (Hsrc : ∀ (fsx : FS) (rend : String) (q : FPath),
      resolve fsx cfg.workspace rend = some q → q ≠ out)
    (artefact : ArtefactConfig) (fsa fsb : FS)
    (hagree : ∀ p : FPath, p ≠ out → fsGet fsa p = fsGet fsb p) :
    (stageStep hash resolve cfg staging_dir context fsa artefact).2 =
      (stageStep hash resolve cfg staging_dir context fsb artefact).2 ∧
    ∀ p : FPath, p ≠ out →
      fsGet (stageStep hash resolve cfg staging_dir context fsa artefact).1 p =
        fsGet (stageStep hash resolve cfg staging_dir context fsb artefact).1 p := by
  have hresolve : _resolve_artefact_source resolve fsa cfg.workspace artefact context =
      _resolve_artefact_source resolve fsb cfg.workspace artefact context := by
    rw [_resolve_artefact_source, _resolve_artefact_source]
    exact resolveSourceLoop_agree resolve cfg.workspace context fsa fsb
      (fun rend => Hres fsa fsb rend hagree) _ _
  cases hra : _resolve_artefact_source resolve fsb cfg.workspace artefact context with
  | error e =>
    constructor
    · simp only [stageStep, hresolve, hra]
    · intro p hp
      simp only [stageStep, hresolve, hra]
      exact hagree p hp
  | ok pr =>
    obtain ⟨srcOpt, attempts⟩ := pr
    cases he : _ensure_source_available srcOpt artefact attempts cfg.workspace with
    | error e =>
      constructor
      · simp only [stageStep, hresolve, hra, he]
      · intro p hp
        simp only [stageStep, hresolve, hra, he]
        exact hagree p hp
    | ok pa =>
      obtain ⟨avail, warns⟩ := pa
      cases avail with
      | false =>
        constructor
        · simp only [stageStep, hresolve, hra, he]
          rfl
        · intro p hp
          simp only [stageStep, hresolve, hra, he]
          exact hagree p hp
      | true =>
        cases srcOpt with
        | none =>
          constructor
          · simp only [stageStep, hresolve, hra, he]
            rfl
          · intro p hp
            simp only [stageStep, hresolve, hra, he]
            exact hagree p hp
        | some sp =>
          have hx : resolveSourceLoop resolve fsa cfg.workspace context
              (artefact.source :: artefact.alternatives) [] =
              .ok (some sp, attempts) := hresolve.trans hra
          have hsp : sp ≠ out := by
            obtain ⟨rend, hrend⟩ := resolveSourceLoop_some_src resolve fsa cfg.workspace
              context (artefact.source :: artefact.alternatives) [] sp attempts hx
            exact Hsrc fsa rend sp hrend
          obtain ⟨hsingle2, hsingle1⟩ := single_agree cfg staging_dir context out hnosub
            artefact sp hsp fsa fsb hagree
          cases hssa : _stage_single_artefact cfg staging_dir context artefact sp fsa with
          | mk fs1a resa =>
            cases hssb : _stage_single_artefact cfg staging_dir context artefact sp fsb with
            | mk fs1b resb =>
              rw [hssa, hssb] at hsingle2 hsingle1
              simp only at hsingle2 hsingle1
              subst hsingle2
              cases resa with
              | error e =>
                constructor
                · simp only [stageStep, hresolve, hra, he, hssa, hssb]
                  rfl
                · intro p hp
                  simp only [stageStep, hresolve, hra, he, hssa, hssb]
                  exact hsingle1 p hp
              | ok dp =>
                have hdp := single_ok_safe cfg staging_dir context artefact sp fsa fs1a dp hssa
                have hdpne : dp ≠ out := ne_of_pathUnder hdp hnosub
                have hread : fsGet fs1a dp = fsGet fs1b dp := hsingle1 dp hdpne
                cases hgc : fsGet fs1b dp with
                | none =>
                  have hgca : fsGet fs1a dp = none := hread.trans hgc
                  constructor
                  · simp only [stageStep, hresolve, hra, he, hssa, hssb, _write_checksum,
                      hgc, hgca]
                    rfl
                  · intro p hp
                    simp only [stageStep, hresolve, hra, he, hssa, hssb, _write_checksum,
                      hgc, hgca]
                    exact hsingle1 p hp
                | some content =>
                  have hgca : fsGet fs1a dp = some content := hread.trans hgc
                  constructor
                  · simp only [stageStep, hresolve, hra, he, hssa, hssb, _write_checksum,
                      hgc, hgca]
                    rfl
                  · intro p hp
                    simp only [stageStep, hresolve, hra, he, hssa, hssb, _write_checksum,
                      hgc, hgca]
                    exact agree_fsSet out _ _ fs1a fs1b hsingle1 p hp

theorem iter_agree (hash : String → String → String) (resolve : Resolver)
    (cfg : StagingConfig) (staging_dir : FPath) (context : Ctx) (out : FPath)
    (hnosub : pathUnder (resolvePath staging_dir) out = false)
    (Hres : ∀ (fsa fsb : FS) (rend : String),
      (∀ p : FPath, p ≠ out → fsGet fsa p = fsGet fsb p) →
      resolve fsa cfg.workspace rend = resolve fsb cfg.workspace rend)
    (Hsrc : ∀ (fsx : FS) (rend : String) (q : FPath),
      resolve fsx cfg.workspace rend = some q → q ≠ out) :
    ∀ (arts : List ArtefactConfig) (fsa fsb : FS),
      (∀ p : FPath, p ≠ out → fsGet fsa p = fsGet fsb p) →
      (_iter_staged_artefacts hash resolve cfg staging_dir context arts fsa).warnings =
        (_iter_staged_artefacts hash resolve cfg staging_dir context arts fsb).warnings ∧
      (_iter_staged_artefacts hash resolve cfg staging_dir context arts fsa).staged =
        (_iter_staged_artefacts hash resolve cfg staging_dir context arts fsb).staged ∧
      (_iter_staged_artefacts hash resolve cfg staging_dir context arts fsa).error =
        (_iter_staged_artefacts hash resolve cfg staging_dir context arts fsb).error ∧
      ∀ p : FPath, p ≠ out →
        fsGet (_iter_staged_artefacts hash resolve cfg staging_dir context arts fsa).fs p =
          fsGet (_iter_staged_artefacts hash resolve cfg staging_dir context arts fsb).fs p := by
  intro arts
  induction arts with
  | nil =>
    intro fsa fsb hagree
    exact ⟨rfl, rfl, rfl, hagree⟩
  | cons a rest ih =>
    intro fsa fsb hagree
    obtain ⟨hstep2, hstep1⟩ := step_agree hash resolve cfg staging_dir context out
      hnosub Hres Hsrc a fsa fsb hagree
    cases hsa : stageStep hash resolve cfg staging_dir context fsa a with
    | mk fs1a ra =>
      cases hsb : stageStep hash resolve cfg staging_dir context fsb a with
      | mk fs1b rb =>
        rw [hsa, hsb] at hstep2 hstep1
        simp only at hstep2 hstep1
        subst hstep2
        obtain ⟨warns, staged?, err?⟩ := ra
        obtain ⟨ihw, ihs, ihe, ihfs⟩ := ih fs1a fs1b hstep1
        cases err? with
        | some e =>
          refine ⟨?_, ?_, ?_, ?_⟩
          · simp only [_iter_staged_artefacts, hsa, hsb]
          · simp only [_iter_staged_artefacts, hsa, hsb]
          · simp only [_iter_staged_artefacts, hsa, hsb]
          · intro p hp
            simp only [_iter_staged_artefacts, hsa, hsb]
            exact hstep1 p hp
        | none =>
          refine ⟨?_, ?_, ?_, ?_⟩
          · simp only [_iter_staged_artefacts, hsa, hsb]
            rw [ihw]
          · simp only [_iter_staged_artefacts, hsa, hsb]
            rw [ihs]
          · simp only [_iter_staged_artefacts, hsa, hsb]
            rw [ihe]
          · intro p hp
            simp only [_iter_staged_artefacts, hsa, hsb]
            exact ihfs p hp

theorem checksum_outside_preserved (hash : String → String → String)
    (staging_dir : FPath) (t : FPath) (alg : String) (p : FPath)
    (hp : pathUnder (resolvePath staging_dir) p = false)
    (ht : pathUnder (resolvePath staging_dir) t = true)
    (htS : t ≠ resolvePath staging_dir) (fs1 : FS) :
    fsGet ((_write_checksum hash t alg fs1).1) p = fsGet fs1 p := by
  cases hg : fsGet fs1 t with
  | none => simp only [_write_checksum, hg]
  | some content =>
    simp only [_write_checksum, hg]
    rw [fsGet_fsSet_ne]
    obtain ⟨rest, hres⟩ := (pathUnder_iff_exists_rest (resolvePath staging_dir) t).mp ht
    cases rest with
    | nil =>
      rw [List.append_nil] at hres
      exact absurd hres.symm htS
    | cons x xs =>
      have hdrop : t.dropLast = resolvePath staging_dir ++ (x :: xs).dropLast := by
        rw [← hres]
        exact List.dropLast_append_of_ne_nil _ (by simp)
      have hpref : pathUnder (resolvePath staging_dir)
          (t.dropLast ++ [nameOf t ++ "." ++ alg]) = true := by
        rw [hdrop, List.append_assoc]
        exact (pathUnder_iff_exists_rest _ _).mpr ⟨_, rfl⟩
      exact (ne_of_pathUnder hpref hp).symm

theorem checksum_error_fs (hash : String → String → String) (t : FPath)
    (alg : String) (fs1 fs2 : FS) (e : PyError)
    (h : _write_checksum hash t alg fs1 = (fs2, .error e)) : fs2 = fs1 := by
  cases hg : fsGet fs1 t with
  | none =>
    simp only [_write_checksum, hg] at h
    exact (congrArg (fun x => x.1) h).symm
  | some content =>
    simp only [_write_checksum, hg] at h
    have h2 := congrArg (fun x => x.2) h
    simp at h2

theorem step_outside_preserved (hash : String → String → String) (resolve : Resolver)
    (cfg : StagingConfig) (staging_dir : FPath) (context : Ctx)
    (p : FPath) (hp : pathUnder (resolvePath staging_dir) p = false)
    (fs : FS) (artefact : ArtefactConfig)
    (hstaged : ∀ s : StagedArtefact,
      (stageStep hash resolve cfg staging_dir context fs artefact).2.2.1 = some s →
      s.path ≠ resolvePath staging_dir) :
    fsGet (stageStep hash resolve cfg staging_dir context fs artefact).1 p =
      fsGet fs p := by
  cases hr : _resolve_artefact_source resolve fs cfg.workspace artefact context with
  | error e => simp only [stageStep, hr]
  | ok pr =>
    obtain ⟨srcOpt, attempts⟩ := pr
    cases he : _ensure_source_available srcOpt artefact attempts cfg.workspace with
    | error e => simp only [stageStep, hr, he]
    | ok pa =>
      obtain ⟨avail, warns⟩ := pa
      cases avail with
      | false => simp [stageStep, hr, he]
      | true =>
        cases srcOpt with
        | none => simp [stageStep, hr, he]
        | some sp =>
          have hsingle := single_out_preserved cfg staging_dir context p hp artefact sp fs
          cases hss : _stage_single_artefact cfg staging_dir context artefact sp fs with
          | mk fs1 res =>
            rw [hss] at hsingle
            simp only at hsingle
            cases res with
            | error e => simp [stageStep, hr, he, hss, hsingle]
            | ok dp =>
              have hdp := single_ok_safe cfg staging_dir context artefact sp fs fs1 dp hss
              cases hwc : _write_checksum hash dp cfg.checksum_algorithm fs1 with
              | mk fs2 cres =>
                cases cres with
                | error e =>
                  have hfs2 := checksum_error_fs hash dp cfg.checksum_algorithm fs1 fs2 e hwc
                  simp [stageStep, hr, he, hss, hwc, hfs2, hsingle]
                | ok digest =>
                  have hdpS : dp ≠ resolvePath staging_dir := by
                    apply hstaged ⟨dp, artefact, digest⟩
                    simp [stageStep, hr, he, hss, hwc]
                  have hcp := checksum_outside_preserved hash staging_dir dp
                    cfg.checksum_algorithm p hp hdp hdpS fs1
                  rw [hwc] at hcp
                  simp only at hcp
                  simp [stageStep, hr, he, hss, hwc, hcp, hsingle]

theorem iter_outside_preserved (hash : String → String → String) (resolve : Resolver)
    (cfg : StagingConfig) (staging_dir : FPath) (context : Ctx)
    (p : FPath) (hp : pathUnder (resolvePath staging_dir) p = false) :
    ∀ (arts : List ArtefactConfig) (fs : FS),
      (∀ s ∈ (_iter_staged_artefacts hash resolve cfg staging_dir context arts fs).staged,
        s.path ≠ resolvePath staging_dir) →
      fsGet (_iter_staged_artefacts hash resolve cfg staging_dir context arts fs).fs p =
        fsGet fs p := by
  intro arts
  induction arts with
  | nil => intro fs _; rfl
  | cons a rest ih =>
    intro fs hstaged
    cases hstep : stageStep hash resolve cfg staging_dir context fs a with
    | mk fs1 r3 =>
      obtain ⟨warns, staged?, err?⟩ := r3
      have hmem : ∀ s ∈ staged?.toList,
          s ∈ (_iter_staged_artefacts hash resolve cfg staging_dir context
            (a :: rest) fs).staged := by
        intro s hs
        simp only [_iter_staged_artefacts, hstep]
        cases err? with
        | some e => exact hs
        | none => exact List.mem_append.mpr (Or.inl hs)
      have hs0 : ∀ s : StagedArtefact,
          (stageStep hash resolve cfg staging_dir context fs a).2.2.1 = some s →
          s.path ≠ resolvePath staging_dir := by
        intro s hsome
        rw [hstep] at hsome
        simp only at hsome
        exact hstaged s (hmem s (by simp [hsome]))
      have hsp := step_outside_preserved hash resolve cfg staging_dir context p hp
        fs a hs0
      rw [hstep] at hsp
      simp only at hsp
      cases err? with
      | some e =>
        simp only [_iter_staged_artefacts, hstep]
        exact hsp
      | none =>
        simp only [_iter_staged_artefacts, hstep]
        rw [ih fs1 ?_]
        · exact hsp
        · intro s hs
          apply hstaged
          simp only [_iter_staged_artefacts, hstep]
          exact List.mem_append.mpr (Or.inr hs)

theorem fsGet_write_github_output_ne (file : FPath) (vals : List (String × OutVal))
    (fs : FS) (p : FPath) (hp : p ≠ file) :
    fsGet (write_github_output file vals fs) p = fsGet fs p := by
  rw [write_github_output]
  exact fsGet_fsSet_ne fs file p _ hp

theorem stageFinish_fs_shape (sd out : FPath) (r : IterResult) :
    (stageFinish sd out r).1 = r.fs ∨
    ∃ vals, (stageFinish sd out r).1 = write_github_output out vals r.fs := by
  cases herr : r.error with
  | some e =>
    left
    simp [stageFinish, herr]
  | none =>
    by_cases hemp : (accumulateStaged r.staged).1 = []
    · left
      simp [stageFinish, herr, hemp]
    · cases hv : _validate_no_reserved_key_collisions (accumulateStaged r.staged).2.1 with
      | error e =>
        left
        simp [stageFinish, herr, hemp, hv]
      | ok u =>
        right
        refine ⟨_prepare_output_data sd (accumulateStaged r.staged).1
          (accumulateStaged r.staged).2.1 (accumulateStaged r.staged).2.2, ?_⟩
        simp [stageFinish, herr, hemp, hv]

theorem stageFinish_congr (sd out : FPath) (r1 r2 : IterResult)
    (hw : r2.warnings = r1.warnings) (hs : r2.staged = r1.staged)
    (he : r2.error = r1.error) :
    (stageFinish sd out r2).2 = (stageFinish sd out r1).2 := by
  cases he1 : r1.error with
  | some e =>
    have he2 : r2.error = some e := by rw [he, he1]
    simp only [stageFinish, he1, he2, hw]
  | none =>
    have he2 : r2.error = none := by rw [he, he1]
    simp only [stageFinish, he1, he2, hs, hw]
    by_cases hemp : (accumulateStaged r1.staged).1 = []
    · rw [if_pos hemp, if_pos hemp]
    · rw [if_neg hemp, if_neg hemp]
      cases hv : _validate_no_reserved_key_collisions (accumulateStaged r1.staged).2.1 with
      | error e => simp only [hv]
      | ok u => simp only [hv]

/-- C9: `stage_artefacts` removes the resolved staging directory wholesale
before staging, so a second run over the result of a first run — with the
same configuration, a resolver that reads only files other than the output
channel (the sources, unchanged between the runs) and never resolves a
source to the output channel file, the output channel outside the staging
directory, and no artefact staged at the staging-directory path itself —
prints the same warnings, returns the same result, and leaves the staging
subtree (staged files and checksum sidecars) byte-for-byte identical to
the first run's: no file below the staging directory survives from the
first run only. -/
theorem C9_idempotent_rerun (hash : String → String → String) (resolve : Resolver)
    (cfg : StagingConfig) (out : FPath) (fs : FS) (context : Ctx)
    (hcx : as_template_context cfg = .ok context)
    (hnosub : pathUnder (resolvePath (stagingDirFromCtx cfg context)) out = false)
    (Hres : ∀ (fsa fsb : FS) (rend : String),
      (∀ p : FPath, p ≠ out → fsGet fsa p = fsGet fsb p) →
      resolve fsa cfg.workspace rend = resolve fsb cfg.workspace rend)
    (Hsrc : ∀ (fsx : FS) (rend : String) (q : FPath),
      resolve fsx cfg.workspace rend = some q → q ≠ out)
    (hstrict : ∀ s ∈ (_iter_staged_artefacts hash resolve cfg
        (stagingDirFromCtx cfg context) context cfg.artefacts
        (_initialize_staging_dir (stagingDirFromCtx cfg context) fs)).staged,
      s.path ≠ resolvePath (stagingDirFromCtx cfg context)) :
    (stage_artefacts hash resolve cfg out
        (stage_artefacts hash resolve cfg out fs).1).2.1 =
      (stage_artefacts hash resolve cfg out fs).2.1 ∧
    (stage_artefacts hash resolve cfg out
        (stage_artefacts hash resolve cfg out fs).1).2.2 =
      (stage_artefacts hash resolve cfg out fs).2.2 ∧
    ∀ p : FPath, pathUnder (resolvePath (stagingDirFromCtx cfg context)) p = true →
      fsGet (stage_artefacts hash resolve cfg out
        (stage_artefacts hash resolve cfg out fs).1).1 p =
        fsGet (stage_artefacts hash resolve cfg out fs).1 p := by
  have hunfold : ∀ f : FS, stage_artefacts hash resolve cfg out f =
      stageFinish (stagingDirFromCtx cfg context) out
        (_iter_staged_artefacts hash resolve cfg (stagingDirFromCtx cfg context) context
          cfg.artefacts (_initialize_staging_dir (stagingDirFromCtx cfg context) f)) := by
    intro f
    simp only [stage_artefacts, hcx]
  have hF1 : ∀ p : FPath,
      pathUnder (resolvePath (stagingDirFromCtx cfg context)) p = false → p ≠ out →
      fsGet (stageFinish (stagingDirFromCtx cfg context) out
        (_iter_staged_artefacts hash resolve cfg (stagingDirFromCtx cfg context) context
          cfg.artefacts (_initialize_staging_dir (stagingDirFromCtx cfg context) fs))).1 p =
        fsGet fs p := by
    intro p hpu hpo
    have hiter : fsGet (_iter_staged_artefacts hash resolve cfg
        (stagingDirFromCtx cfg context) context cfg.artefacts
        (_initialize_staging_dir (stagingDirFromCtx cfg context) fs)).fs p = fsGet fs p := by
      rw [iter_outside_preserved hash resolve cfg (stagingDirFromCtx cfg context) context
          p hpu cfg.artefacts _ hstrict,
        _initialize_staging_dir, fsGet_clearSubtree_ne _ _ hpu fs]
    rcases stageFinish_fs_shape (stagingDirFromCtx cfg context) out
        (_iter_staged_artefacts hash resolve cfg (stagingDirFromCtx cfg context) context
          cfg.artefacts (_initialize_staging_dir (stagingDirFromCtx cfg context) fs)) with
      hsh | ⟨vals, hsh⟩
    · rw [hsh]
      exact hiter
    · rw [hsh, fsGet_write_github_output_ne out vals _ p hpo]
      exact hiter
  have hstart : ∀ p : FPath, p ≠ out →
      fsGet (_initialize_staging_dir (stagingDirFromCtx cfg context)
        (stageFinish (stagingDirFromCtx cfg context) out
          (_iter_staged_artefacts hash resolve cfg (stagingDirFromCtx cfg context) context
            cfg.artefacts
            (_initialize_staging_dir (stagingDirFromCtx cfg context) fs))).1) p =
        fsGet (_initialize_staging_dir (stagingDirFromCtx cfg context) fs) p := by
    intro p hpo
    by_cases hpu : pathUnder (resolvePath (stagingDirFromCtx cfg context)) p = true
    · rw [_initialize_staging_dir, _initialize_staging_dir,
        fsGet_clearSubtree_under _ _ hpu, fsGet_clearSubtree_under _ _ hpu]
    · have hpu2 : pathUnder (resolvePath (stagingDirFromCtx cfg context)) p = false := by
        simpa using hpu
      rw [_initialize_staging_dir, _initialize_staging_dir,
        fsGet_clearSubtree_ne _ _ hpu2, fsGet_clearSubtree_ne _ _ hpu2]
      exact hF1 p hpu2 hpo
  obtain ⟨hw, hs, he, hfs⟩ := iter_agree hash resolve cfg (stagingDirFromCtx cfg context)
    context out hnosub Hres Hsrc cfg.artefacts
    (_initialize_staging_dir (stagingDirFromCtx cfg context)
      (stageFinish (stagingDirFromCtx cfg context) out
        (_iter_staged_artefacts hash resolve cfg (stagingDirFromCtx cfg context) context
          cfg.artefacts (_initialize_staging_dir (stagingDirFromCtx cfg context) fs))).1)
    (_initialize_staging_dir (stagingDirFromCtx cfg context) fs) hstart
  have hcongr := stageFinish_congr (stagingDirFromCtx cfg context) out
    (_iter_staged_artefacts hash resolve cfg (stagingDirFromCtx cfg context) context
      cfg.artefacts (_initialize_staging_dir (stagingDirFromCtx cfg context) fs))
    (_iter_staged_artefacts hash resolve cfg (stagingDirFromCtx cfg context) context
      cfg.artefacts
      (_initialize_staging_dir (stagingDirFromCtx cfg context)
        (stageFinish (stagingDirFromCtx cfg context) out
          (_iter_staged_artefacts hash resolve cfg (stagingDirFromCtx cfg context) context
            cfg.artefacts (_initialize_staging_dir (stagingDirFromCtx cfg context) fs))).1))
    hw hs he
  simp only [hunfold]
  refine ⟨?_, ?_, ?_⟩
  · exact congrArg (fun x => x.1) hcongr
  · exact congrArg (fun x => x.2) hcongr
  · intro p hpu
    have hpo : p ≠ out := ne_of_pathUnder hpu hnosub
    have h2 : fsGet (stageFinish (stagingDirFromCtx cfg context) out
        (_iter_staged_artefacts hash resolve cfg (stagingDirFromCtx cfg context) context
          cfg.artefacts
          (_initialize_staging_dir (stagingDirFromCtx cfg context)
            (stageFinish (stagingDirFromCtx cfg context) out
              (_iter_staged_artefacts hash resolve cfg (stagingDirFromCtx cfg context)
                context cfg.artefacts
                (_initialize_staging_dir (stagingDirFromCtx cfg context) fs))).1))).1 p =
        fsGet (_iter_staged_artefacts hash resolve cfg (stagingDirFromCtx cfg context)
          context cfg.artefacts
          (_initialize_staging_dir (stagingDirFromCtx cfg context)
            (stageFinish (stagingDirFromCtx cfg context) out
              (_iter_staged_artefacts hash resolve cfg (stagingDirFromCtx cfg context)
                context cfg.artefacts
                (_initialize_staging_dir (stagingDirFromCtx cfg context) fs))).1)).fs p := by
      rcases stageFinish_fs_shape (stagingDirFromCtx cfg context) out
          (_iter_staged_artefacts hash resolve cfg (stagingDirFromCtx cfg context) context
            cfg.artefacts
            (_initialize_staging_dir (stagingDirFromCtx cfg context)
              (stageFinish (stagingDirFromCtx cfg context) out
                (_iter_staged_artefacts hash resolve cfg (stagingDirFromCtx cfg context)
                  context cfg.artefacts
                  (_initialize_staging_dir (stagingDirFromCtx cfg context) fs))).1)) with
        hsh2 | ⟨vals2, hsh2⟩
      · rw [hsh2]
      · rw [hsh2, fsGet_write_github_output_ne out vals2 _ p hpo]
    have h1 : fsGet (stageFinish (stagingDirFromCtx cfg context) out
        (_iter_staged_artefacts hash resolve cfg (stagingDirFromCtx cfg context) context
          cfg.artefacts (_initialize_staging_dir (stagingDirFromCtx cfg context) fs))).1 p =
        fsGet (_iter_staged_artefacts hash resolve cfg (stagingDirFromCtx cfg context)
          context cfg.artefacts
          (_initialize_staging_dir (stagingDirFromCtx cfg context) fs)).fs p := by
      rcases stageFinish_fs_shape (stagingDirFromCtx cfg context) out
          (_iter_staged_artefacts hash resolve cfg (stagingDirFromCtx cfg context) context
            cfg.artefacts (_initialize_staging_dir (stagingDirFromCtx cfg context) fs)) with
        hsh1 | ⟨vals1, hsh1⟩
      · rw [hsh1]
      · rw [hsh1, fsGet_write_github_output_ne out vals1 _ p hpo]
    rw [h2, h1]
    exact hfs p hpo

/-- Concrete check of C9: rerunning the two-artefact staging returns the
same warnings and result and reproduces the staged file contents. -/
theorem C9_idempotent_rerun_witness :
    (stage_artefacts testHash litResolve cfgSameName ["gh", "out.txt"]
        (stage_artefacts testHash litResolve cfgSameName ["gh", "out.txt"]
          fsTwoSources).1).2.1 =
      (stage_artefacts testHash litResolve cfgSameName ["gh", "out.txt"]
        fsTwoSources).2.1 ∧
    (stage_artefacts testHash litResolve cfgSameName ["gh", "out.txt"]
        (stage_artefacts testHash litResolve cfgSameName ["gh", "out.txt"]
          fsTwoSources).1).2.2 =
      (stage_artefacts testHash litResolve cfgSameName ["gh", "out.txt"]
        fsTwoSources).2.2 ∧
    fsGet (stage_artefacts testHash litResolve cfgSameName ["gh", "out.txt"]
        (stage_artefacts testHash litResolve cfgSameName ["gh", "out.txt"]
          fsTwoSources).1).1 ["w", "dist", "app_linux_amd64", "d1", "f.txt"] =
      fsGet (stage_artefacts testHash litResolve cfgSameName ["gh", "out.txt"]
        fsTwoSources).1 ["w", "dist", "app_linux_amd64", "d1", "f.txt"] := by
  have h := C9_idempotent_rerun testHash litResolve cfgSameName ["gh", "out.txt"]
    fsTwoSources ctxEsc (by decide) (by decide)
    (fun fsa fsb rend hag => by
      have hne : ("w" :: posixParts rend : FPath) ≠ ["gh", "out.txt"] := by
        intro hcontra
        injection hcontra with h1 h2
        exact absurd h1 (by decide)
      have hget := hag ("w" :: posixParts rend) hne
      show litResolve fsa ["w"] rend = litResolve fsb ["w"] rend
      simp only [litResolve, List.cons_append, List.nil_append]
      rw [hget])
    (fun fsx rend q hq => by
      have hq2 : litResolve fsx ["w"] rend = some q := hq
      simp only [litResolve, List.cons_append, List.nil_append] at hq2
      by_cases hc : (fsGet fsx ("w" :: posixParts rend)).isSome
      · rw [if_pos hc] at hq2
        injection hq2 with h2
        intro hcontra
        rw [← h2] at hcontra
        injection hcontra with h1 h3
        exact absurd h1 (by decide)
      · rw [if_neg hc] at hq2
        cases hq2)
    (by decide)
  exact ⟨h.1, h.2.1, h.2.2 ["w", "dist", "app_linux_amd64", "d1", "f.txt"] (by decide)⟩
